import Mathlib

/-!
# Crypto benchmark harness and metrics collector

A shallow embedding of the Go packages `crypto-benchmark/metrics` (collector.go),
`crypto-benchmark/msp` (enhanced_msp.go and working_mldsa.go: the `Benchmark` harness and
the scheme operations) and of `validateImplementation` (main.go), followed by the properties
proved about them.

Conventions.
* Go `int`, `int64` and `time.Duration` values are integers (`Int`); where the code can
  overflow (`total += d`) the 64-bit wrap-around is written out with `wrapInt64`.
* Go `float64` is the type `Float64` below: NaN, the two infinities and the finite values
  with their exact rational value.  Comparison follows IEEE-754 (every comparison with NaN
  is false), conversion and division round to nearest, ties to even, 53-bit significand.
  The sign of zero is not represented; no operation modelled here observes it.
* Go `[]byte` is `List UInt8`.
-/

namespace CryptoBenchmark

/-! ## float64 -/

/-- IEEE-754 binary64 values: NaN, `inf neg` (negative when `neg`), and the finite values,
each carried as the rational number it denotes. -/
inductive Float64 where
  | nan
  | inf (neg : Bool)
  | fin (q : ℚ)
  deriving DecidableEq

namespace Float64

/-- Go `a < b` on float64: false as soon as an operand is NaN. -/
def lt : Float64 → Float64 → Bool
  | fin a, fin b => decide (a < b)
  | fin _, inf neg => !neg
  | inf neg, fin _ => neg
  | inf a, inf b => a && !b
  | _, _ => false

/-- Go `a <= b` on float64: false as soon as an operand is NaN. -/
def le : Float64 → Float64 → Bool
  | fin a, fin b => decide (a ≤ b)
  | fin _, inf neg => !neg
  | inf neg, fin _ => neg
  | inf a, inf b => a || !b
  | _, _ => false

/-- Nearest integer to `q`, a tie going to the even neighbour. -/
def roundHalfEven (q : ℚ) : Int :=
  let f := Int.floor q
  let r := q - f
  if r < 1 / 2 then f
  else if 1 / 2 < r then f + 1
  else if f % 2 = 0 then f else f + 1

/-- Binary exponent of a positive rational `q`: the `k` with `2^k ≤ q < 2^(k+1)`. -/
def ilog2 (q : ℚ) : Int :=
  let k : Int := (Nat.log 2 q.num.natAbs : Int) - (Nat.log 2 q.den : Int)
  if (2 : ℚ) ^ k ≤ q then k else k - 1

/-- Rounding of an exact value to binary64: 53 significant bits, round to nearest even,
gradual underflow below `2^-1022`, overflow to infinity. -/
def ofRat (q : ℚ) : Float64 :=
  if q = 0 then fin 0
  else
    let e : Int := max (ilog2 |q| - 52) (-1074)
    let m : Int := roundHalfEven (|q| / (2 : ℚ) ^ e)
    let v : ℚ := m * (2 : ℚ) ^ e
    if (2 : ℚ) ^ (1024 : Int) ≤ v then inf (decide (q < 0))
    else fin (if q < 0 then -v else v)

/-- Go conversion `float64(n)` of an integer. -/
def ofInt (n : Int) : Float64 := ofRat n

/-- Go `a / b` on float64 (a zero divisor is taken as `+0`). -/
def div : Float64 → Float64 → Float64
  | fin a, fin b =>
    if b = 0 then (if a = 0 then nan else inf (decide (a < 0))) else ofRat (a / b)
  | fin _, inf _ => fin 0
  | inf neg, fin b => inf (neg != decide (b < 0))
  | _, _ => nan

end Float64

/-! ## msp.CryptoMetrics and the metrics collector (collector.go) -/

/-- Go `msp.CryptoMetrics`. -/
structure CryptoMetrics where
  Algorithm : String
  KeygenTimeMs : Float64
  SignTimeMs : Float64
  VerifyTimeMs : Float64
  PublicKeyBytes : Int
  PrivateKeyBytes : Int
  SignatureBytes : Int
  Timestamp : String
  deriving DecidableEq

/-- Go `metrics.TestConfig`. -/
structure TestConfig where
  TestMessage : String
  Iterations : Int
  Algorithms : List String
  TestDuration : String
  deriving DecidableEq

/-- Go `metrics.AlgorithmStats`. -/
structure AlgorithmStats where
  Algorithm : String
  Value : Float64
  Unit : String
  deriving DecidableEq

/-- Go `metrics.Summary`. -/
structure Summary where
  FastestKeygen : AlgorithmStats
  FastestSign : AlgorithmStats
  FastestVerify : AlgorithmStats
  SmallestPubKey : AlgorithmStats
  SmallestPrivKey : AlgorithmStats
  SmallestSig : AlgorithmStats
  deriving DecidableEq

/-- Go `metrics.MetricsCollector`; `startTime` is the clock reading taken at creation. -/
structure MetricsCollector where
  results : List CryptoMetrics
  config : TestConfig
  startTime : Int
  deriving DecidableEq

/-- Go zero value `AlgorithmStats{}`. -/
def AlgorithmStats.zero : AlgorithmStats :=
  { Algorithm := "", Value := Float64.fin 0, Unit := "" }

/-- Go zero value `Summary{}`. -/
def Summary.zero : Summary :=
  { FastestKeygen := AlgorithmStats.zero, FastestSign := AlgorithmStats.zero,
    FastestVerify := AlgorithmStats.zero, SmallestPubKey := AlgorithmStats.zero,
    SmallestPrivKey := AlgorithmStats.zero, SmallestSig := AlgorithmStats.zero }

/-- Go `NewMetricsCollector`; `now` is the value `time.Now()` returns. -/
def NewMetricsCollector (testMessage : String) (iterations : Int) (algorithms : List String)
    (now : Int) : MetricsCollector :=
  { results := [],
    config := { TestMessage := testMessage, Iterations := iterations,
                Algorithms := algorithms, TestDuration := "" },
    startTime := now }

/-- Go `(*MetricsCollector).AddResult`. -/
def MetricsCollector.AddResult (mc : MetricsCollector) (result : CryptoMetrics) :
    MetricsCollector :=
  { mc with results := mc.results ++ [result] }

/-- Go `(*MetricsCollector).GetResults`. -/
def MetricsCollector.GetResults (mc : MetricsCollector) : List CryptoMetrics :=
  mc.results

/-- The scan each of the six blocks of `GenerateSummary` performs:
`best := results[0]; for _, result := range results[1:] { if less(result, best) { best = result } }`. -/
def scanMin (less : CryptoMetrics → CryptoMetrics → Bool) (first : CryptoMetrics)
    (rest : List CryptoMetrics) : CryptoMetrics :=
  rest.foldl (fun best result => if less result best then result else best) first

/-- Go `(*MetricsCollector).GenerateSummary`. -/
def MetricsCollector.GenerateSummary (mc : MetricsCollector) : Summary :=
  match mc.results with
  | [] => Summary.zero
  | first :: rest =>
    let fastestKeygen := scanMin (fun r b => Float64.lt r.KeygenTimeMs b.KeygenTimeMs) first rest
    let fastestSign := scanMin (fun r b => Float64.lt r.SignTimeMs b.SignTimeMs) first rest
    let fastestVerify := scanMin (fun r b => Float64.lt r.VerifyTimeMs b.VerifyTimeMs) first rest
    let smallestPubKey := scanMin (fun r b => decide (r.PublicKeyBytes < b.PublicKeyBytes)) first rest
    let smallestPrivKey :=
      scanMin (fun r b => decide (r.PrivateKeyBytes < b.PrivateKeyBytes)) first rest
    let smallestSig := scanMin (fun r b => decide (r.SignatureBytes < b.SignatureBytes)) first rest
    { FastestKeygen :=
        { Algorithm := fastestKeygen.Algorithm, Value := fastestKeygen.KeygenTimeMs, Unit := "ms" },
      FastestSign :=
        { Algorithm := fastestSign.Algorithm, Value := fastestSign.SignTimeMs, Unit := "ms" },
      FastestVerify :=
        { Algorithm := fastestVerify.Algorithm, Value := fastestVerify.VerifyTimeMs, Unit := "ms" },
      SmallestPubKey :=
        { Algorithm := smallestPubKey.Algorithm,
          Value := Float64.ofInt smallestPubKey.PublicKeyBytes, Unit := "bytes" },
      SmallestPrivKey :=
        { Algorithm := smallestPrivKey.Algorithm,
          Value := Float64.ofInt smallestPrivKey.PrivateKeyBytes, Unit := "bytes" },
      SmallestSig :=
        { Algorithm := smallestSig.Algorithm,
          Value := Float64.ofInt smallestSig.SignatureBytes, Unit := "bytes" } }

/-! ## Vocabulary of the summary properties -/

/-- The record called `name` is the first one of `rs` whose metric `key` is the minimum:
some record `x` of `rs` carries that name, its metric is at most that of every record of `rs`,
and every record before `x` has a strictly larger metric. -/
def IsFirstMin {κ : Type} (leq less : κ → κ → Bool) (key : CryptoMetrics → κ)
    (rs : List CryptoMetrics) (name : String) : Prop :=
  ∃ pre x post, rs = pre ++ x :: post ∧ x.Algorithm = name ∧
    (∀ y ∈ rs, leq (key x) (key y) = true) ∧ (∀ y ∈ pre, less (key x) (key y) = true)

/-- Go `a <= b` on `int`. -/
def intLe (a b : Int) : Bool := decide (a ≤ b)

/-- Go `a < b` on `int`. -/
def intLt (a b : Int) : Bool := decide (a < b)

/-- The summary entry `e` carries the name and the value `val x` of a record `x` of `rs`
and the unit `unit`, and its value is at most `val y` for every record `y` of `rs`. -/
def IsMinEntry (val : CryptoMetrics → Float64) (rs : List CryptoMetrics) (unit : String)
    (e : AlgorithmStats) : Prop :=
  e.Unit = unit ∧ (∃ x ∈ rs, x.Algorithm = e.Algorithm ∧ e.Value = val x) ∧
    ∀ y ∈ rs, Float64.le e.Value (val y) = true

/-- No time field of the record is NaN. -/
def CryptoMetrics.TimesNotNaN (r : CryptoMetrics) : Prop :=
  r.KeygenTimeMs ≠ Float64.nan ∧ r.SignTimeMs ≠ Float64.nan ∧ r.VerifyTimeMs ≠ Float64.nan

/-- The three byte counts of the record are at most `2^53` in absolute value, the range on
which `float64(n)` is exact. -/
def CryptoMetrics.SizesExact (r : CryptoMetrics) : Prop :=
  |r.PublicKeyBytes| ≤ 2 ^ 53 ∧ |r.PrivateKeyBytes| ≤ 2 ^ 53 ∧ |r.SignatureBytes| ≤ 2 ^ 53

/-- The smallest value of the integer metric `val` over `rs` is a float64 value: the
conversion `float64(n)` of a record whose metric is at most that of every record does not
round.  Every integer of absolute value at most `2^53` converts without rounding. -/
def MinConvertsExactly (val : CryptoMetrics → Int) (rs : List CryptoMetrics) : Prop :=
  ∀ r ∈ rs, (∀ y ∈ rs, val r ≤ val y) → Float64.ofInt (val r) = Float64.fin (val r)

/-- A record with the given name, keygen time and public-key size (other fields fixed). -/
def sampleRecord (name : String) (keygen : Float64) (pub : Int) : CryptoMetrics :=
  { Algorithm := name, KeygenTimeMs := keygen, SignTimeMs := Float64.fin 1,
    VerifyTimeMs := Float64.fin 1, PublicKeyBytes := pub, PrivateKeyBytes := 32,
    SignatureBytes := 64, Timestamp := "" }

/-- A collector holding the given records. -/
def sampleCollector (rs : List CryptoMetrics) : MetricsCollector :=
  { results := rs, config := { TestMessage := "", Iterations := 1, Algorithms := [],
                               TestDuration := "" }, startTime := 0 }

/-- The records `[A = 5 ms, B = 3 ms, C = 3 ms]` (keygen) of the tie-break example. -/
def tieRecords : List CryptoMetrics :=
  [sampleRecord "A" (Float64.fin 5) 91, sampleRecord "B" (Float64.fin 3) 1312,
   sampleRecord "C" (Float64.fin 3) 1952]

/-- Two records, the first with a NaN keygen time. -/
def nanRecords : List CryptoMetrics :=
  [sampleRecord "A" Float64.nan 91, sampleRecord "B" (Float64.fin 3) 1312]

/-- One record whose public-key size `2^53 + 1` is not a float64 value. -/
def hugeRecords : List CryptoMetrics :=
  [sampleRecord "A" (Float64.fin 5) (2 ^ 53 + 1)]

/-! ## msp: the benchmark harness (enhanced_msp.go)

`Benchmark` drives the scheme operations `NewEnhancedMSP`, `Sign`, `Verify`,
`GetPublicKeyBytes`, `GetPrivateKeyBytes` and `setPublicKeyFromBytes`, which end in external
cryptographic libraries and the random source, and it reads the clock.  Here they are
arbitrary functions that may fail, collected in `Env`.  Each call of `Benchmark` is identified
by its call site and trial index (`Site`); `Env` gives the result the call returns there, and
the duration `time.Since` measures around it.  A run of the Go program determines such an
`Env`, so a statement over all `Env` covers every run. -/

/-- Go `[]byte`. -/
abbrev Bytes := List UInt8

/-- Go `msp.SignatureAlgorithm`, an `int`. -/
structure SignatureAlgorithm where
  val : Int
  deriving DecidableEq

/-- Go constant `ECDSA`. -/
def ECDSA : SignatureAlgorithm := ⟨0⟩

/-- Go constant `MLDSA44`. -/
def MLDSA44 : SignatureAlgorithm := ⟨1⟩

/-- Go constant `MLDSA65`. -/
def MLDSA65 : SignatureAlgorithm := ⟨2⟩

/-- Go constant `MLDSA87`. -/
def MLDSA87 : SignatureAlgorithm := ⟨3⟩

/-- Go `(SignatureAlgorithm).String`. -/
def SignatureAlgorithm.String (sa : SignatureAlgorithm) : String :=
  if sa = ECDSA then "ECDSA"
  else if sa = MLDSA44 then "ML-DSA-44"
  else if sa = MLDSA65 then "ML-DSA-65"
  else if sa = MLDSA87 then "ML-DSA-87"
  else "Unknown"

/-- Go `msp.EnhancedMSP`; the two `interface{}` fields hold values of an opaque type `Key`. -/
structure EnhancedMSP (Key : Type) where
  algorithm : SignatureAlgorithm
  keyPair : Key
  publicKey : Key

/-- The call sites of `Benchmark`, with the trial index `i` of the enclosing loop. -/
inductive Site where
  /-- `NewEnhancedMSP` of the key-generation loop (line 237). -/
  | keygen (i : Nat)
  /-- `NewEnhancedMSP` of the signing loop (line 257). -/
  | signNew (i : Nat)
  /-- `freshMSP.Sign(testMessage)` of the signing loop (line 263). -/
  | sign (i : Nat)
  /-- `NewEnhancedMSP` creating `verifyMSP` (line 282). -/
  | verifyNewVerifier (i : Nat)
  /-- `NewEnhancedMSP` creating `signingMSP` (line 287). -/
  | verifyNewSigner (i : Nat)
  /-- `signingMSP.Sign(uniqueMessage)` (line 296). -/
  | verifySign (i : Nat)
  /-- `signingMSP.GetPublicKeyBytes()` (line 302). -/
  | verifyGetPub (i : Nat)
  /-- `verifyMSP.setPublicKeyFromBytes(publicKeyBytes)` (line 308). -/
  | verifySetPub (i : Nat)
  /-- The measured `verifyMSP.Verify(uniqueMessage, sig)` (line 314). -/
  | verify1 (i : Nat)
  /-- The second `verifyMSP.Verify(uniqueMessage, sig)` (line 332). -/
  | verify2 (i : Nat)
  /-- `msp.GetPublicKeyBytes()` of the size measurement (line 349). -/
  | sizePub
  /-- `msp.GetPrivateKeyBytes()` of the size measurement (line 355). -/
  | sizePriv
  deriving DecidableEq

/-- What the scheme operations and the clock return at each call site of `Benchmark`.
A Go result `(v, err)` is `.error err` when `err != nil` and `.ok v` otherwise. -/
structure Env (Key : Type) where
  NewEnhancedMSP : Site → SignatureAlgorithm → Except String (EnhancedMSP Key)
  Sign : Site → EnhancedMSP Key → Bytes → Except String Bytes
  Verify : Site → EnhancedMSP Key → Bytes → Bytes → Except String Bool
  GetPublicKeyBytes : Site → EnhancedMSP Key → Except String Bytes
  GetPrivateKeyBytes : Site → EnhancedMSP Key → Except String Bytes
  /-- The receiver after the update, or the error. -/
  setPublicKeyFromBytes : Site → EnhancedMSP Key → Bytes → Except String (EnhancedMSP Key)
  /-- Nanoseconds `time.Since(start)` returns for the call measured at the site. -/
  elapsed : Site → Int
  /-- Value of `time.Now().UnixNano()` in verification trial `i` (line 293). -/
  unixNano : Nat → Int
  /-- Value of `time.Now().Format(time.RFC3339)` (line 229). -/
  timestamp : String

/-- Decimal digits of a natural number as ASCII bytes, most significant first. -/
def decimalDigits (n : Nat) : Bytes :=
  if n = 0 then [48] else (Nat.digits 10 n).reverse.map (fun d => UInt8.ofNat (48 + d))

/-- Go `%d` of an integer: the decimal digits, after `-` when negative. -/
def formatInt (z : Int) : Bytes :=
  if z < 0 then 45 :: decimalDigits z.natAbs else decimalDigits z.natAbs

/-- Go `append(testMessage, []byte(fmt.Sprintf("_%d_%d", i, t))...)` (line 293). -/
def uniqueMessage (testMessage : Bytes) (i : Nat) (t : Int) : Bytes :=
  testMessage ++ ([95] ++ formatInt (i : Int) ++ [95] ++ formatInt t)

/-- The guard `if t < time.Microsecond { t = time.Microsecond }` (lines 244, 270, 325);
durations are in nanoseconds. -/
def floorMicrosecond (t : Int) : Int :=
  if t < 1000 then 1000 else t

/-- Body of the key-generation loop (lines 235-248): the timing stored in `keygenTimes[i]`. -/
def keygenTrial {Key : Type} (env : Env Key) (alg : SignatureAlgorithm) (i : Nat) :
    Except String Int :=
  match env.NewEnhancedMSP (.keygen i) alg with
  | .error err => .error ("key generation failed: " ++ err)
  | .ok _ => .ok (floorMicrosecond (env.elapsed (.keygen i)))

/-- The key-generation loop `for i := 0; i < iterations; i++` (lines 233-249): the array
`keygenTimes`, or the error of the first failing trial. -/
def keygenLoop {Key : Type} (env : Env Key) (alg : SignatureAlgorithm) :
    Nat → Except String (List Int)
  | 0 => .ok []
  | n + 1 =>
    match keygenLoop env alg n with
    | .error e => .error e
    | .ok keygenTimes =>
      match keygenTrial env alg n with
      | .error e => .error e
      | .ok keygenTime => .ok (keygenTimes ++ [keygenTime])

/-- Body of the signing loop (lines 256-274): the timing stored in `signTimes[i]` and the
signature assigned to `signature`. -/
def signTrial {Key : Type} (env : Env Key) (alg : SignatureAlgorithm) (testMessage : Bytes)
    (i : Nat) : Except String (Int × Bytes) :=
  match env.NewEnhancedMSP (.signNew i) alg with
  | .error err => .error ("failed to create fresh MSP for signing: " ++ err)
  | .ok freshMSP =>
    match env.Sign (.sign i) freshMSP testMessage with
    | .error err => .error ("signing failed: " ++ err)
    | .ok sig => .ok (floorMicrosecond (env.elapsed (.sign i)), sig)

/-- The signing loop (lines 253-275): the array `signTimes` and the last signature
(`nil` before the first trial). -/
def signLoop {Key : Type} (env : Env Key) (alg : SignatureAlgorithm) (testMessage : Bytes) :
    Nat → Except String (List Int × Bytes)
  | 0 => .ok ([], [])
  | n + 1 =>
    match signLoop env alg testMessage n with
    | .error e => .error e
    | .ok (signTimes, _) =>
      match signTrial env alg testMessage n with
      | .error e => .error e
      | .ok (signTime, sig) => .ok (signTimes ++ [signTime], sig)

/-- Body of the verification loop (lines 281-344): the timing stored in `verifyTimes[i]`. -/
def verifyTrial {Key : Type} (env : Env Key) (alg : SignatureAlgorithm) (testMessage : Bytes)
    (i : Nat) : Except String Int :=
  match env.NewEnhancedMSP (.verifyNewVerifier i) alg with
  | .error err => .error ("failed to create verification MSP: " ++ err)
  | .ok verifyMSP =>
    match env.NewEnhancedMSP (.verifyNewSigner i) alg with
    | .error err => .error ("failed to create signing MSP: " ++ err)
    | .ok signingMSP =>
      let uniqueMsg := uniqueMessage testMessage i (env.unixNano i)
      match env.Sign (.verifySign i) signingMSP uniqueMsg with
      | .error err => .error ("signing failed for verification: " ++ err)
      | .ok sig =>
        match env.GetPublicKeyBytes (.verifyGetPub i) signingMSP with
        | .error err => .error ("failed to get public key for verification: " ++ err)
        | .ok publicKeyBytes =>
          match env.setPublicKeyFromBytes (.verifySetPub i) verifyMSP publicKeyBytes with
          | .error err => .error ("failed to set public key for verification: " ++ err)
          | .ok verifyMSP =>
            match env.Verify (.verify1 i) verifyMSP uniqueMsg sig with
            | .error err => .error ("verification failed: " ++ err)
            | .ok false => .error "signature verification failed"
            | .ok true =>
              let verifyTime := floorMicrosecond (env.elapsed (.verify1 i))
              match env.Verify (.verify2 i) verifyMSP uniqueMsg sig with
              | .ok true =>
                let verifyTime2 := env.elapsed (.verify2 i)
                .ok (if verifyTime2 > verifyTime then verifyTime2 else verifyTime)
              | _ => .error "verification consistency check failed"

/-- The verification loop (lines 279-345): the array `verifyTimes`. -/
def verifyLoop {Key : Type} (env : Env Key) (alg : SignatureAlgorithm) (testMessage : Bytes) :
    Nat → Except String (List Int)
  | 0 => .ok []
  | n + 1 =>
    match verifyLoop env alg testMessage n with
    | .error e => .error e
    | .ok verifyTimes =>
      match verifyTrial env alg testMessage n with
      | .error e => .error e
      | .ok verifyTime => .ok (verifyTimes ++ [verifyTime])

/-- Reduction of an integer to the int64 range, as Go arithmetic wraps. -/
def wrapInt64 (x : Int) : Int :=
  (x + 2 ^ 63) % 2 ^ 64 - 2 ^ 63

/-- Go `calculateAverageDuration` (lines 368-379); durations are int64 nanoseconds, `/` on
them truncates toward zero. -/
def calculateAverageDuration (durations : List Int) : Int :=
  if durations.length = 0 then 0
  else
    let total := durations.foldl (fun total d => wrapInt64 (total + d)) 0
    Int.tdiv total (durations.length : Int)

/-- Go `float64(d.Nanoseconds()) / 1e6` (lines 250, 276, 346). -/
def durationMs (d : Int) : Float64 :=
  Float64.div (Float64.ofInt d) (Float64.fin 1000000)

/-- Go `(*EnhancedMSP).Benchmark` (lines 226-365): the metrics record, or the error
returned with a nil record.  The iteration count is a natural number: on a negative count
`make([]time.Duration, iterations)` panics before any trial. -/
def Benchmark {Key : Type} (env : Env Key) (msp : EnhancedMSP Key) (testMessage : Bytes)
    (iterations : Nat) : Except String CryptoMetrics :=
  match keygenLoop env msp.algorithm iterations with
  | .error e => .error e
  | .ok keygenTimes =>
    match signLoop env msp.algorithm testMessage iterations with
    | .error e => .error e
    | .ok (signTimes, signature) =>
      match verifyLoop env msp.algorithm testMessage iterations with
      | .error e => .error e
      | .ok verifyTimes =>
        match env.GetPublicKeyBytes .sizePub msp with
        | .error err => .error ("failed to get public key bytes: " ++ err)
        | .ok publicKeyBytes =>
          match env.GetPrivateKeyBytes .sizePriv msp with
          | .error err => .error ("failed to get private key bytes: " ++ err)
          | .ok privateKeyBytes =>
            .ok { Algorithm := msp.algorithm.String,
                  KeygenTimeMs := durationMs (calculateAverageDuration keygenTimes),
                  SignTimeMs := durationMs (calculateAverageDuration signTimes),
                  VerifyTimeMs := durationMs (calculateAverageDuration verifyTimes),
                  PublicKeyBytes := publicKeyBytes.length,
                  PrivateKeyBytes := privateKeyBytes.length,
                  SignatureBytes := signature.length,
                  Timestamp := env.timestamp }

/-! ## Vocabulary of the averaging property -/

/-- The arithmetic mean of the durations: their sum divided by their number. -/
def arithmeticMean (durations : List Int) : ℚ :=
  (durations.sum : ℚ) / (durations.length : ℚ)

/-- Truncation of a rational toward zero. -/
def truncToInt (q : ℚ) : Int :=
  if 0 ≤ q then Int.floor q else Int.ceil q

/-! ## Vocabulary of the error properties -/

/-- Every scheme operation of trial `i` up to the measured verify call succeeds: instance
construction in the three loops, the two signing calls, public-key export and import, and
the measured `Verify` returns true. -/
def TrialOperationsSucceed {Key : Type} (env : Env Key) (alg : SignatureAlgorithm)
    (testMessage : Bytes) (i : Nat) : Prop :=
  (∃ m, env.NewEnhancedMSP (.keygen i) alg = .ok m) ∧
  (∃ m sig, env.NewEnhancedMSP (.signNew i) alg = .ok m ∧
    env.Sign (.sign i) m testMessage = .ok sig) ∧
  (∃ verifyMSP signingMSP sig publicKeyBytes verifyMSP',
    env.NewEnhancedMSP (.verifyNewVerifier i) alg = .ok verifyMSP ∧
    env.NewEnhancedMSP (.verifyNewSigner i) alg = .ok signingMSP ∧
    env.Sign (.verifySign i) signingMSP (uniqueMessage testMessage i (env.unixNano i))
      = .ok sig ∧
    env.GetPublicKeyBytes (.verifyGetPub i) signingMSP = .ok publicKeyBytes ∧
    env.setPublicKeyFromBytes (.verifySetPub i) verifyMSP publicKeyBytes = .ok verifyMSP' ∧
    env.Verify (.verify1 i) verifyMSP' (uniqueMessage testMessage i (env.unixNano i)) sig
      = .ok true)

/-- Some scheme operation of trial `i` fails: an instance construction, a signing call, the
public-key export or the public-key import returns an error, or the measured `Verify`
returns an error or false.  Each operation is applied to the values the preceding
operations of the trial returned. -/
def TrialOperationFails {Key : Type} (env : Env Key) (alg : SignatureAlgorithm)
    (testMessage : Bytes) (i : Nat) : Prop :=
  (∃ e, env.NewEnhancedMSP (.keygen i) alg = .error e) ∨
  (∃ e, env.NewEnhancedMSP (.signNew i) alg = .error e) ∨
  (∃ m e, env.NewEnhancedMSP (.signNew i) alg = .ok m ∧
    env.Sign (.sign i) m testMessage = .error e) ∨
  (∃ e, env.NewEnhancedMSP (.verifyNewVerifier i) alg = .error e) ∨
  (∃ e, env.NewEnhancedMSP (.verifyNewSigner i) alg = .error e) ∨
  (∃ signingMSP e, env.NewEnhancedMSP (.verifyNewSigner i) alg = .ok signingMSP ∧
    env.Sign (.verifySign i) signingMSP (uniqueMessage testMessage i (env.unixNano i))
      = .error e) ∨
  (∃ signingMSP e, env.NewEnhancedMSP (.verifyNewSigner i) alg = .ok signingMSP ∧
    env.GetPublicKeyBytes (.verifyGetPub i) signingMSP = .error e) ∨
  (∃ verifyMSP signingMSP publicKeyBytes e,
    env.NewEnhancedMSP (.verifyNewVerifier i) alg = .ok verifyMSP ∧
    env.NewEnhancedMSP (.verifyNewSigner i) alg = .ok signingMSP ∧
    env.GetPublicKeyBytes (.verifyGetPub i) signingMSP = .ok publicKeyBytes ∧
    env.setPublicKeyFromBytes (.verifySetPub i) verifyMSP publicKeyBytes = .error e) ∨
  (∃ verifyMSP signingMSP sig publicKeyBytes verifyMSP',
    env.NewEnhancedMSP (.verifyNewVerifier i) alg = .ok verifyMSP ∧
    env.NewEnhancedMSP (.verifyNewSigner i) alg = .ok signingMSP ∧
    env.Sign (.verifySign i) signingMSP (uniqueMessage testMessage i (env.unixNano i))
      = .ok sig ∧
    env.GetPublicKeyBytes (.verifyGetPub i) signingMSP = .ok publicKeyBytes ∧
    env.setPublicKeyFromBytes (.verifySetPub i) verifyMSP publicKeyBytes = .ok verifyMSP' ∧
    (env.Verify (.verify1 i) verifyMSP' (uniqueMessage testMessage i (env.unixNano i)) sig
        = .ok false ∨
      ∃ e, env.Verify (.verify1 i) verifyMSP'
        (uniqueMessage testMessage i (env.unixNano i)) sig = .error e))

/-! ## Sample environments -/

/-- An environment in which every scheme operation succeeds, with the given measured
durations and the given results of the `Verify` calls. -/
def sampleEnv (elapsed : Site → Int) (verify : Site → Except String Bool) : Env Unit :=
  { NewEnhancedMSP := fun _ alg => .ok { algorithm := alg, keyPair := (), publicKey := () },
    Sign := fun _ _ _ => .ok [1, 2, 3],
    Verify := fun site _ _ _ => verify site,
    GetPublicKeyBytes := fun _ _ => .ok [4, 5],
    GetPrivateKeyBytes := fun _ _ => .ok [6],
    setPublicKeyFromBytes := fun _ m _ => .ok m,
    elapsed := elapsed,
    unixNano := fun _ => 0,
    timestamp := "" }

/-- A receiver for `Benchmark`. -/
def sampleMSP : EnhancedMSP Unit :=
  { algorithm := ECDSA, keyPair := (), publicKey := () }

/-- Measured durations below one microsecond: 300 ns for every call except the second
`Verify`, which takes 700 ns. -/
def subMicrosecondElapsed : Site → Int
  | .verify2 _ => 700
  | _ => 300

/-- Results of the `Verify` calls: the measured call of trial 1 returns false, every other
call returns true. -/
def measuredVerifyFalse : Site → Except String Bool
  | .verify1 1 => .ok false
  | _ => .ok true

/-- Results of the `Verify` calls: the second call of trial 1 returns false, every other call
returns true. -/
def secondVerifyFalse : Site → Except String Bool
  | .verify2 1 => .ok false
  | _ => .ok true

/-! ## The clock of one run

The durations `Benchmark` stores come from `time.Since(start)` with `start := time.Now()`
taken just before the measured call (lines 236-238, 262-264, 313-315, 331-333).  Both
readings carry the monotonic clock, an int64 count of nanoseconds, so a measured span is
not negative; the measured calls of one run follow one another, so their spans are disjoint
parts of the run. -/

/-- Total of the spans measured in the first `n` trials of the three loops. -/
def measuredTotal {Key : Type} (env : Env Key) : Nat → Int
  | 0 => 0
  | n + 1 =>
    measuredTotal env n + env.elapsed (.keygen n) + env.elapsed (.sign n)
      + env.elapsed (.verify1 n) + env.elapsed (.verify2 n)

/-- The measured durations are those of a run of `n` iterations on a real clock: no span is
negative, and the disjoint measured spans of the run, with one microsecond added for each
of the `n` trials to cover the floor, stay below `2^63` ns, the range of the clock (292
years).  No run leaves this range: the spans lie between two int64 clock readings of one
process, and the floor alone would take about `9 * 10^15` trials, more durations than a
slice can hold. -/
def Env.Realizable {Key : Type} (env : Env Key) (n : Nat) : Prop :=
  (∀ site, 0 ≤ env.elapsed site) ∧ measuredTotal env n + 1000 * (n : Int) < 2 ^ 63

/-! ## Vocabulary of the positivity property -/

/-- The sums `total` that `calculateAverageDuration` forms over the three stored timing
arrays of a run stay below `2^63`, so that no addition wraps around. -/
def TimingSumsFit {Key : Type} (env : Env Key) (alg : SignatureAlgorithm)
    (testMessage : Bytes) (n : Nat) : Prop :=
  (∀ ts, keygenLoop env alg n = .ok ts → ts.sum < 2 ^ 63) ∧
  (∀ ts sig, signLoop env alg testMessage n = .ok (ts, sig) → ts.sum < 2 ^ 63) ∧
  (∀ ts, verifyLoop env alg testMessage n = .ok ts → ts.sum < 2 ^ 63)

/-! ## main: validateImplementation (main.go)

As for `Benchmark`, the scheme operations are arbitrary functions that may fail, indexed by
the call site and by the position `a` of the algorithm in the list (and the position `j` of
the message in the battery).  Console output is not modelled. -/

/-- The call sites of `validateImplementation`, for the algorithm at position `a`. -/
inductive ValidationSite where
  /-- Call `msp.NewEnhancedMSP(algorithm)` creating `mspInstance` (line 121). -/
  | create (a : Nat)
  /-- Call `mspInstance.Sign(testMessage)` on battery message `j` (line 136). -/
  | sign (a j : Nat)
  /-- Call `mspInstance.Verify(testMessage, signature)` on battery message `j` (line 142). -/
  | verify (a j : Nat)
  /-- Call `mspInstance.GetPublicKeyBytes()` (line 158). -/
  | getPub (a : Nat)
  /-- Call `mspInstance.GetPrivateKeyBytes()` (line 167). -/
  | getPriv (a : Nat)
  /-- Call `msp.NewEnhancedMSP(algorithm)` creating `signingMSP` (line 177). -/
  | createSigner (a : Nat)
  /-- Call `msp.NewEnhancedMSP(algorithm)` creating `verifyingMSP` (line 182). -/
  | createVerifier (a : Nat)
  /-- Call `signingMSP.Sign(crossTestMessage)` (line 188). -/
  | crossSign (a : Nat)
  /-- Call `signingMSP.GetPublicKeyBytes()` (line 194). -/
  | crossGetPub (a : Nat)
  /-- Call `verifyingMSP.Verify(crossTestMessage, crossSignature)` (line 201). -/
  | crossVerify (a : Nat)
  /-- Call `mspInstance.Sign([]byte("Performance test message"))` (line 209). -/
  | perfSign (a : Nat)
  deriving DecidableEq

/-- What the scheme operations return at each call site of `validateImplementation`. -/
structure ValidationEnv (Key : Type) where
  NewEnhancedMSP : ValidationSite → SignatureAlgorithm → Except String (EnhancedMSP Key)
  Sign : ValidationSite → EnhancedMSP Key → Bytes → Except String Bytes
  Verify : ValidationSite → EnhancedMSP Key → Bytes → Bytes → Except String Bool
  GetPublicKeyBytes : ValidationSite → EnhancedMSP Key → Except String Bytes
  GetPrivateKeyBytes : ValidationSite → EnhancedMSP Key → Except String Bytes

/-- Go `[]byte(s)` for a string of ASCII characters. -/
def asciiBytes (s : String) : Bytes :=
  s.toList.map (fun c => UInt8.ofNat c.toNat)

/-- The battery `testMessages` (lines 127-132). -/
def testMessages : List Bytes :=
  [asciiBytes "Short test",
   asciiBytes "This is a longer test message with more content to validate",
   asciiBytes "Test with special chars: !@#$%^&*()_+-=[]\x7b\x7d|;\x27:\",./<>?",
   asciiBytes "Empty message test"]

/-- The loop `for i, testMessage := range testMessages` (lines 134-155), from index `i` on:
the error returned, or `none` when the loop completes. -/
def validateMessages {Key : Type} (env : ValidationEnv Key) (a : Nat)
    (algorithm : SignatureAlgorithm) (mspInstance : EnhancedMSP Key) :
    Nat → List Bytes → Option String
  | _, [] => none
  | i, testMessage :: rest =>
    match env.Sign (.sign a i) mspInstance testMessage with
    | .error err =>
      some ("signing failed for " ++ algorithm.String ++ " (message " ++ toString (i + 1)
        ++ "): " ++ err)
    | .ok signature =>
      match env.Verify (.verify a i) mspInstance testMessage signature with
      | .error err =>
        some ("verification failed for " ++ algorithm.String ++ " (message "
          ++ toString (i + 1) ++ "): " ++ err)
      | .ok valid =>
        if !valid then
          some ("signature verification returned false for " ++ algorithm.String
            ++ " (message " ++ toString (i + 1) ++ ")")
        else if signature.length = 0 then
          some ("signature is empty for " ++ algorithm.String ++ " (message "
            ++ toString (i + 1) ++ ")")
        else validateMessages env a algorithm mspInstance (i + 1) rest

/-- Test 5 of the loop body (lines 207-217); the measured sign time is only printed. -/
def validatePerformance {Key : Type} (env : ValidationEnv Key) (a : Nat)
    (algorithm : SignatureAlgorithm) (mspInstance : EnhancedMSP Key) : Option String :=
  match env.Sign (.perfSign a) mspInstance (asciiBytes "Performance test message") with
  | .error err =>
    some ("performance test signing failed for " ++ algorithm.String ++ ": " ++ err)
  | .ok _ => none

/-- Tests 4 and 5 of the loop body (lines 176-217), after the key extraction. -/
def validateCrossInstance {Key : Type} (env : ValidationEnv Key) (a : Nat)
    (algorithm : SignatureAlgorithm) (mspInstance : EnhancedMSP Key) : Option String :=
  match env.NewEnhancedMSP (.createSigner a) algorithm with
  | .error err => some ("failed to create signing MSP for " ++ algorithm.String ++ ": " ++ err)
  | .ok signingMSP =>
    match env.NewEnhancedMSP (.createVerifier a) algorithm with
    | .error err =>
      some ("failed to create verifying MSP for " ++ algorithm.String ++ ": " ++ err)
    | .ok verifyingMSP =>
      let crossTestMessage := asciiBytes "Cross-instance verification test"
      match env.Sign (.crossSign a) signingMSP crossTestMessage with
      | .error err =>
        some ("cross-instance signing failed for " ++ algorithm.String ++ ": " ++ err)
      | .ok crossSignature =>
        match env.GetPublicKeyBytes (.crossGetPub a) signingMSP with
        | .error err => some ("failed to get public key for cross-instance test: " ++ err)
        | .ok _ =>
          match env.Verify (.crossVerify a) verifyingMSP crossTestMessage crossSignature with
          | .ok false =>
            -- `if err == nil && !valid { }` (lines 202-205): the block is empty
            validatePerformance env a algorithm mspInstance
          | _ => validatePerformance env a algorithm mspInstance

/-- Body of the loop over the algorithms (lines 117-220) for the algorithm at position `a`:
the error returned, or `none` when the body completes. -/
def validateAlgorithm {Key : Type} (env : ValidationEnv Key) (a : Nat)
    (algorithm : SignatureAlgorithm) : Option String :=
  match env.NewEnhancedMSP (.create a) algorithm with
  | .error err => some ("failed to create MSP for " ++ algorithm.String ++ ": " ++ err)
  | .ok mspInstance =>
    match validateMessages env a algorithm mspInstance 0 testMessages with
    | some e => some e
    | none =>
      match env.GetPublicKeyBytes (.getPub a) mspInstance with
      | .error err =>
        some ("failed to get public key bytes for " ++ algorithm.String ++ ": " ++ err)
      | .ok publicKeyBytes =>
        if publicKeyBytes.length = 0 then
          some ("public key bytes is empty for " ++ algorithm.String)
        else
          match env.GetPrivateKeyBytes (.getPriv a) mspInstance with
          | .error err =>
            some ("failed to get private key bytes for " ++ algorithm.String ++ ": " ++ err)
          | .ok privateKeyBytes =>
            if privateKeyBytes.length = 0 then
              some ("private key bytes is empty for " ++ algorithm.String)
            else validateCrossInstance env a algorithm mspInstance

/-- The loop `for _, algorithm := range algorithms`, from position `a` on. -/
def validateFrom {Key : Type} (env : ValidationEnv Key) :
    Nat → List SignatureAlgorithm → Option String
  | _, [] => none
  | a, algorithm :: rest =>
    match validateAlgorithm env a algorithm with
    | some e => some e
    | none => validateFrom env (a + 1) rest

/-- Go `validateImplementation` (main.go, lines 112-226): the error returned, `none` for
`nil`. -/
def validateImplementation {Key : Type} (env : ValidationEnv Key)
    (algorithms : List SignatureAlgorithm) : Option String :=
  validateFrom env 0 algorithms

/-- The environment `env` with the results of the cross-instance `Verify` call replaced
by `cross`. -/
def ValidationEnv.withCrossVerify {Key : Type} (env : ValidationEnv Key)
    (cross : Nat → EnhancedMSP Key → Bytes → Bytes → Except String Bool) : ValidationEnv Key :=
  { env with
    Verify := fun site m message signature =>
      match site with
      | .crossVerify a => cross a m message signature
      | _ => env.Verify site m message signature }

/-- A validation environment in which every operation succeeds, with the given `Sign`. -/
def sampleValidationEnv (sign : ValidationSite → Bytes → Except String Bytes)
    (verify : ValidationSite → Except String Bool) : ValidationEnv Unit :=
  { NewEnhancedMSP := fun _ alg => .ok { algorithm := alg, keyPair := (), publicKey := () },
    Sign := fun site _ message => sign site message,
    Verify := fun site _ _ _ => verify site,
    GetPublicKeyBytes := fun _ _ => .ok [4, 5],
    GetPrivateKeyBytes := fun _ _ => .ok [6] }

/-- A `Sign` that fails exactly on the zero-length message. -/
def signFailsOnEmpty : ValidationSite → Bytes → Except String Bytes
  | _, [] => .error "cannot sign the empty message"
  | _, _ :: _ => .ok [1, 2, 3]

/-- A `Sign` that returns an empty signature for battery message 2 of algorithm 1. -/
def signEmptyOnce : ValidationSite → Bytes → Except String Bytes
  | .sign 1 2, _ => .ok []
  | _, _ => .ok [1, 2, 3]

/-! ## Vocabulary of the validation properties -/

/-- The check of battery message `j` for the algorithm at position `a` fails: signing
returns an error, or the signature is empty, or verification of the message with that
signature returns false or an error. -/
def MessageCheckFails {Key : Type} (env : ValidationEnv Key) (a : Nat)
    (mspInstance : EnhancedMSP Key) (j : Nat) (testMessage : Bytes) : Prop :=
  (∃ e, env.Sign (.sign a j) mspInstance testMessage = .error e) ∨
  ∃ signature, env.Sign (.sign a j) mspInstance testMessage = .ok signature ∧
    (signature = [] ∨
     env.Verify (.verify a j) mspInstance testMessage signature = .ok false ∨
     ∃ e, env.Verify (.verify a j) mspInstance testMessage signature = .error e)

/-! ## msp: the scheme operations themselves (enhanced_msp.go, working_mldsa.go)

`NewEnhancedMSP`, `Verify` and `setPublicKeyFromBytes` as written, over the library
primitives they call.  The `interface{}` fields of an instance hold a `KeyValue`; a failing
type assertion such as `msp.publicKey.(*ecdsa.PublicKey)` panics, which is the result `none`
below. -/

/-- The dilithium modes of `NewWorkingMLDSAKeyPair`. -/
inductive DilithiumMode where
  | Mode2
  | Mode3
  | Mode5
  deriving DecidableEq

/-- Go `msp.WorkingMLDSAKeyPair`. -/
structure WorkingMLDSAKeyPair (MlPriv MlPub : Type) where
  SecurityLevel : Int
  PrivateKey : MlPriv
  PublicKey : MlPub
  Mode : DilithiumMode

/-- The dynamic values the fields `keyPair` and `publicKey` of an instance hold. -/
inductive KeyValue (EcPriv EcPub MlPriv MlPub : Type) where
  /-- The nil interface value of a fresh struct. -/
  | nil
  /-- A `*ecdsa.PrivateKey`. -/
  | ecdsaPrivateKey (key : EcPriv)
  /-- A `*ecdsa.PublicKey`. -/
  | ecdsaPublicKey (key : EcPub)
  /-- A `*WorkingMLDSAKeyPair`. -/
  | mldsaKeyPair (keyPair : WorkingMLDSAKeyPair MlPriv MlPub)

/-- The deterministic library functions the scheme operations call. -/
structure Primitives (EcPriv EcPub MlPriv MlPub : Type) where
  /-- Digest `sha256` of a message. -/
  sha256 : Bytes → Bytes
  /-- The field `key.PublicKey` of an ECDSA private key. -/
  ecdsaPublic : EcPriv → EcPub
  /-- Go `ecdsa.VerifyASN1(publicKey, hash, signature)`. -/
  ecdsaVerifyASN1 : EcPub → Bytes → Bytes → Bool
  /-- Go `mode.Verify(publicKey, message, signature)` of the dilithium package. -/
  dilithiumVerify : DilithiumMode → MlPub → Bytes → Bytes → Bool
  /-- Go `x509.ParsePKIXPublicKey(bytes)`: an error, or the key parsed, which is
  `some` ECDSA public key or `none` for a key of another kind. -/
  parsePKIXPublicKey : Bytes → Except String (Option EcPub)
  /-- Go `mode.PublicKeyFromBytes(bytes)`; `none` when the library panics. -/
  dilithiumPublicKeyFromBytes : DilithiumMode → Bytes → Option MlPub

/-- What the key generators return in one call of `NewEnhancedMSP`; they read
`rand.Reader`. -/
structure KeyGeneration (EcPriv MlPriv MlPub : Type) where
  /-- Go `ecdsa.GenerateKey(elliptic.P256(), rand.Reader)`. -/
  ecdsaGenerateKey : Except String EcPriv
  /-- Go `mode.GenerateKey(rand.Reader)`: the public and the private key. -/
  dilithiumGenerateKey : DilithiumMode → Except String (MlPub × MlPriv)

/-- Go `(*EnhancedMSP).generateECDSAKeyPair` (lines 89-98). -/
def generateECDSAKeyPair {EcPriv EcPub MlPriv MlPub : Type}
    (P : Primitives EcPriv EcPub MlPriv MlPub) (gen : KeyGeneration EcPriv MlPriv MlPub)
    (msp : EnhancedMSP (KeyValue EcPriv EcPub MlPriv MlPub)) :
    Except String (EnhancedMSP (KeyValue EcPriv EcPub MlPriv MlPub)) :=
  match gen.ecdsaGenerateKey with
  | .error err => .error err
  | .ok key =>
    .ok { msp with keyPair := .ecdsaPrivateKey key, publicKey := .ecdsaPublicKey (P.ecdsaPublic key) }

/-- Go `NewWorkingMLDSAKeyPair` (working_mldsa.go, lines 19-45). -/
def NewWorkingMLDSAKeyPair {EcPriv MlPriv MlPub : Type}
    (gen : KeyGeneration EcPriv MlPriv MlPub) (securityLevel : Int) :
    Except String (WorkingMLDSAKeyPair MlPriv MlPub) :=
  let generate (mode : DilithiumMode) : Except String (WorkingMLDSAKeyPair MlPriv MlPub) :=
    match gen.dilithiumGenerateKey mode with
    | .error err => .error ("failed to generate ML-DSA key pair: " ++ err)
    | .ok (publicKey, privateKey) =>
      .ok { SecurityLevel := securityLevel, PrivateKey := privateKey,
            PublicKey := publicKey, Mode := mode }
  if securityLevel = 44 then generate .Mode2
  else if securityLevel = 65 then generate .Mode3
  else if securityLevel = 87 then generate .Mode5
  else .error ("unsupported ML-DSA security level: " ++ toString securityLevel)

/-- Go `(*EnhancedMSP).generateMLDSAKeyPair` (lines 101-111). -/
def generateMLDSAKeyPair {EcPriv EcPub MlPriv MlPub : Type}
    (gen : KeyGeneration EcPriv MlPriv MlPub)
    (msp : EnhancedMSP (KeyValue EcPriv EcPub MlPriv MlPub)) (securityLevel : Int) :
    Except String (EnhancedMSP (KeyValue EcPriv EcPub MlPriv MlPub)) :=
  match NewWorkingMLDSAKeyPair gen securityLevel with
  | .error err => .error ("failed to generate real ML-DSA key pair: " ++ err)
  | .ok keyPair => .ok { msp with keyPair := .mldsaKeyPair keyPair, publicKey := .mldsaKeyPair keyPair }

/-- Go `(*EnhancedMSP).generateKeyPair` (lines 73-86). -/
def generateKeyPair {EcPriv EcPub MlPriv MlPub : Type}
    (P : Primitives EcPriv EcPub MlPriv MlPub) (gen : KeyGeneration EcPriv MlPriv MlPub)
    (msp : EnhancedMSP (KeyValue EcPriv EcPub MlPriv MlPub)) :
    Except String (EnhancedMSP (KeyValue EcPriv EcPub MlPriv MlPub)) :=
  if msp.algorithm = ECDSA then generateECDSAKeyPair P gen msp
  else if msp.algorithm = MLDSA44 then generateMLDSAKeyPair gen msp 44
  else if msp.algorithm = MLDSA65 then generateMLDSAKeyPair gen msp 65
  else if msp.algorithm = MLDSA87 then generateMLDSAKeyPair gen msp 87
  else .error ("unsupported algorithm: " ++ msp.algorithm.String)

/-- Go `NewEnhancedMSP` (lines 59-70). -/
def NewEnhancedMSP {EcPriv EcPub MlPriv MlPub : Type}
    (P : Primitives EcPriv EcPub MlPriv MlPub) (gen : KeyGeneration EcPriv MlPriv MlPub)
    (algorithm : SignatureAlgorithm) :
    Except String (EnhancedMSP (KeyValue EcPriv EcPub MlPriv MlPub)) :=
  match generateKeyPair P gen { algorithm := algorithm, keyPair := .nil, publicKey := .nil } with
  | .error err => .error ("failed to generate key pair: " ++ err)
  | .ok msp => .ok msp

/-- Go `(*EnhancedMSP).verifyECDSA` (lines 163-167); `none` when the type assertion
panics. -/
def verifyECDSA {EcPriv EcPub MlPriv MlPub : Type} (P : Primitives EcPriv EcPub MlPriv MlPub)
    (msp : EnhancedMSP (KeyValue EcPriv EcPub MlPriv MlPub)) (hash signature : Bytes) :
    Option (Except String Bool) :=
  match msp.publicKey with
  | .ecdsaPublicKey publicKey => some (.ok (P.ecdsaVerifyASN1 publicKey hash signature))
  | _ => none

/-- Go `(*EnhancedMSP).verifyMLDSA` (lines 170-174) with `(*WorkingMLDSAKeyPair).Verify`;
`none` when the type assertion panics. -/
def verifyMLDSA {EcPriv EcPub MlPriv MlPub : Type} (P : Primitives EcPriv EcPub MlPriv MlPub)
    (msp : EnhancedMSP (KeyValue EcPriv EcPub MlPriv MlPub)) (hash signature : Bytes) :
    Option (Except String Bool) :=
  match msp.keyPair with
  | .mldsaKeyPair keyPair =>
    some (.ok (P.dilithiumVerify keyPair.Mode keyPair.PublicKey hash signature))
  | _ => none

/-- Go `(*EnhancedMSP).Verify` (lines 147-160): `some (.ok valid)` for `(valid, nil)`,
`some (.error err)` for `(false, err)`, `none` for a panic. -/
def EnhancedMSP.Verify {EcPriv EcPub MlPriv MlPub : Type}
    (P : Primitives EcPriv EcPub MlPriv MlPub)
    (msp : EnhancedMSP (KeyValue EcPriv EcPub MlPriv MlPub)) (message signature : Bytes) :
    Option (Except String Bool) :=
  let hash := P.sha256 message
  if msp.algorithm = ECDSA then verifyECDSA P msp hash signature
  else if msp.algorithm = MLDSA44 ∨ msp.algorithm = MLDSA65 ∨ msp.algorithm = MLDSA87 then
    verifyMLDSA P msp hash signature
  else some (.error ("unsupported algorithm for verification: " ++ msp.algorithm.String))

/-- Go `(*EnhancedMSP).setECDSAPublicKeyFromBytes` (lines 399-412): the receiver after
the call and the error returned. -/
def setECDSAPublicKeyFromBytes {EcPriv EcPub MlPriv MlPub : Type}
    (P : Primitives EcPriv EcPub MlPriv MlPub)
    (msp : EnhancedMSP (KeyValue EcPriv EcPub MlPriv MlPub)) (publicKeyBytes : Bytes) :
    EnhancedMSP (KeyValue EcPriv EcPub MlPriv MlPub) × Option String :=
  match P.parsePKIXPublicKey publicKeyBytes with
  | .error err => (msp, some err)
  | .ok none => (msp, some "not an ECDSA public key")
  | .ok (some ecdsaPublicKey) => ({ msp with publicKey := .ecdsaPublicKey ecdsaPublicKey }, none)

/-- Go `(*EnhancedMSP).setMLDSAPublicKeyFromBytes` (lines 415-426): the receiver after the
call and the error returned, `none` for a panic.  The key pair is shared by the two fields,
so both see the new public key. -/
def setMLDSAPublicKeyFromBytes {EcPriv EcPub MlPriv MlPub : Type}
    (P : Primitives EcPriv EcPub MlPriv MlPub)
    (msp : EnhancedMSP (KeyValue EcPriv EcPub MlPriv MlPub)) (publicKeyBytes : Bytes) :
    Option (EnhancedMSP (KeyValue EcPriv EcPub MlPriv MlPub) × Option String) :=
  match msp.keyPair with
  | .mldsaKeyPair keyPair =>
    match P.dilithiumPublicKeyFromBytes keyPair.Mode publicKeyBytes with
    | none => none
    | some publicKey =>
      some ({ msp with keyPair := .mldsaKeyPair { keyPair with PublicKey := publicKey },
                       publicKey := .mldsaKeyPair { keyPair with PublicKey := publicKey } },
            none)
  | _ => none

/-- Go `(*EnhancedMSP).setPublicKeyFromBytes` (lines 387-396). -/
def setPublicKeyFromBytes {EcPriv EcPub MlPriv MlPub : Type}
    (P : Primitives EcPriv EcPub MlPriv MlPub)
    (msp : EnhancedMSP (KeyValue EcPriv EcPub MlPriv MlPub)) (publicKeyBytes : Bytes) :
    Option (EnhancedMSP (KeyValue EcPriv EcPub MlPriv MlPub) × Option String) :=
  if msp.algorithm = ECDSA then some (setECDSAPublicKeyFromBytes P msp publicKeyBytes)
  else if msp.algorithm = MLDSA44 ∨ msp.algorithm = MLDSA65 ∨ msp.algorithm = MLDSA87 then
    setMLDSAPublicKeyFromBytes P msp publicKeyBytes
  else some (msp, some ("unsupported algorithm for public key setting: " ++ msp.algorithm.String))

/-- The instances a program obtains from the package: those `NewEnhancedMSP` returns, and
those left by `setPublicKeyFromBytes` on such an instance. -/
inductive Reachable {EcPriv EcPub MlPriv MlPub : Type}
    (P : Primitives EcPriv EcPub MlPriv MlPub) :
    EnhancedMSP (KeyValue EcPriv EcPub MlPriv MlPub) → Prop where
  | created (gen : KeyGeneration EcPriv MlPriv MlPub) (algorithm : SignatureAlgorithm)
      (msp : EnhancedMSP (KeyValue EcPriv EcPub MlPriv MlPub))
      (h : NewEnhancedMSP P gen algorithm = .ok msp) : Reachable P msp
  | updated (msp msp' : EnhancedMSP (KeyValue EcPriv EcPub MlPriv MlPub))
      (publicKeyBytes : Bytes) (err : Option String) (h : Reachable P msp)
      (hset : setPublicKeyFromBytes P msp publicKeyBytes = some (msp', err)) : Reachable P msp'

/-- The algorithm tag is one of the four supported ones. -/
def SignatureAlgorithm.Supported (sa : SignatureAlgorithm) : Prop :=
  sa = ECDSA ∨ sa = MLDSA44 ∨ sa = MLDSA65 ∨ sa = MLDSA87

/-- The verdict of the library primitive on the digest of the message, for an instance
whose fields hold keys of the kind its algorithm tag calls for. -/
def VerifyReturnsVerdict {EcPriv EcPub MlPriv MlPub : Type}
    (P : Primitives EcPriv EcPub MlPriv MlPub)
    (msp : EnhancedMSP (KeyValue EcPriv EcPub MlPriv MlPub)) (message signature : Bytes) :
    Prop :=
  (msp.algorithm = ECDSA ∧ ∃ publicKey, msp.publicKey = .ecdsaPublicKey publicKey ∧
    EnhancedMSP.Verify P msp message signature
      = some (.ok (P.ecdsaVerifyASN1 publicKey (P.sha256 message) signature))) ∨
  (msp.algorithm ≠ ECDSA ∧ ∃ keyPair, msp.keyPair = .mldsaKeyPair keyPair ∧
    EnhancedMSP.Verify P msp message signature
      = some (.ok (P.dilithiumVerify keyPair.Mode keyPair.PublicKey (P.sha256 message)
          signature)))

/-- Sample primitives on byte-string keys: a signature is accepted when it equals the public
key followed by the digest; the digest is the message itself. -/
def samplePrimitives : Primitives Bytes Bytes Bytes Bytes :=
  { sha256 := fun message => message,
    ecdsaPublic := fun key => key,
    ecdsaVerifyASN1 := fun publicKey hash signature => decide (signature = publicKey ++ hash),
    dilithiumVerify := fun _ publicKey hash signature => decide (signature = publicKey ++ hash),
    parsePKIXPublicKey := fun bytes => .ok (some bytes),
    dilithiumPublicKeyFromBytes := fun _ bytes => some bytes }

/-- Sample key generation returning fixed keys. -/
def sampleKeyGeneration : KeyGeneration Bytes Bytes Bytes :=
  { ecdsaGenerateKey := .ok [7],
    dilithiumGenerateKey := fun _ => .ok ([8], [9]) }

/-- The fields of the instance hold keys of the kind its algorithm tag calls for: an ECDSA
public key under the tag `ECDSA`, an ML-DSA key pair under the three ML-DSA tags. -/
def WellTyped {EcPriv EcPub MlPriv MlPub : Type}
    (msp : EnhancedMSP (KeyValue EcPriv EcPub MlPriv MlPub)) : Prop :=
  (msp.algorithm = ECDSA ∧ ∃ publicKey, msp.publicKey = .ecdsaPublicKey publicKey) ∨
  ((msp.algorithm = MLDSA44 ∨ msp.algorithm = MLDSA65 ∨ msp.algorithm = MLDSA87) ∧
    ∃ keyPair, msp.keyPair = .mldsaKeyPair keyPair)

/-! ## Properties of the float64 model -/

namespace Float64

theorem le_refl_of_ne_nan {a : Float64} (ha : a ≠ nan) : le a a = true := by
  cases a with
  | nan => exact absurd rfl ha
  | inf neg => cases neg <;> rfl
  | fin q => simp [le]

theorem le_of_lt {a b : Float64} (h : lt a b = true) : le a b = true := by
  match a, b, h with
  | fin x, fin y, h => simp only [lt, le, decide_eq_true_eq] at h ⊢; exact h.le
  | fin _, inf neg, h => simpa [lt, le] using h
  | inf neg, fin _, h => simpa [lt, le] using h
  | inf x, inf y, h => cases x <;> cases y <;> simp_all [lt, le]

theorem le_of_not_lt {a b : Float64} (ha : a ≠ nan) (hb : b ≠ nan) (h : lt a b = false) :
    le b a = true := by
  match a, b, ha, hb, h with
  | fin x, fin y, _, _, h =>
    simp only [lt, le, decide_eq_true_eq, decide_eq_false_iff_not, not_lt] at h ⊢; exact h
  | fin _, inf neg, _, _, h => simpa [lt, le] using h
  | inf neg, fin _, _, _, h => simpa [lt, le] using h
  | inf x, inf y, _, _, h => cases x <;> cases y <;> simp_all [lt, le]

theorem lt_of_lt_of_le {a b c : Float64} (h₁ : lt a b = true) (h₂ : le b c = true) :
    lt a c = true := by
  match a, b, c, h₁, h₂ with
  | fin x, fin y, fin z, h₁, h₂ =>
    simp only [lt, le, decide_eq_true_eq] at h₁ h₂ ⊢; exact h₁.trans_le h₂
  | fin _, fin _, inf z, _, h₂ => simpa [lt, le] using h₂
  | fin _, inf y, fin _, h₁, h₂ => cases y <;> simp_all [lt, le]
  | fin _, inf y, inf z, h₁, h₂ => cases y <;> cases z <;> simp_all [lt, le]
  | inf x, fin _, fin _, h₁, _ => simpa [lt, le] using h₁
  | inf x, fin _, inf z, h₁, h₂ => cases x <;> cases z <;> simp_all [lt, le]
  | inf x, inf y, fin _, h₁, h₂ => cases x <;> cases y <;> simp_all [lt, le]
  | inf x, inf y, inf z, h₁, h₂ => cases x <;> cases y <;> cases z <;> simp_all [lt, le]

end Float64

namespace Float64

theorem roundHalfEven_intCast (z : Int) : roundHalfEven (z : ℚ) = z := by
  simp [roundHalfEven]

theorem ilog2_intCast_le (a : ℕ) : ilog2 ((a : ℕ) : ℚ) ≤ (Nat.log 2 a : Int) := by
  unfold ilog2
  simp only [Rat.num_natCast, Rat.den_natCast, Int.natAbs_ofNat, Nat.log_one_right,
    Nat.cast_zero, sub_zero]
  split <;> omega

/-- Rounding is exact on a value that is an integer multiple of the unit in the last place. -/
theorem ofRat_exact (n : Int) (h : |n| ≤ 2 ^ 53) : ofRat (n : ℚ) = fin n := by
  by_cases hn : n = 0
  · subst hn; simp [ofRat]
  have hq : (n : ℚ) ≠ 0 := by exact_mod_cast hn
  obtain ⟨a, ha⟩ : ∃ a : ℕ, |n| = a := ⟨n.natAbs, by simp⟩
  have habs : |(n : ℚ)| = (a : ℚ) := by
    rw [← Int.cast_abs, ha]; simp
  have ha53 : a ≤ 2 ^ 53 := by
    have : (a : Int) ≤ 2 ^ 53 := ha ▸ h
    exact_mod_cast this
  have hL : Nat.log 2 a ≤ 53 := by
    have : Nat.log 2 a < 54 := Nat.log_lt_of_lt_pow (by
      intro h0; subst h0; simp at ha; exact hn ha) (by omega)
    omega
  have hil := ilog2_intCast_le a
  -- the scaled value is an integer
  have hint : ∃ z : Int, (a : ℚ) / (2 : ℚ) ^ (max (ilog2 (a : ℚ) - 52) (-1074)) = z := by
    generalize he : max (ilog2 (a : ℚ) - 52) (-1074) = e
    have he1 : e ≤ 1 := by rw [← he]; omega
    rcases le_or_lt e 0 with h0 | h0
    · obtain ⟨k, hk⟩ := Int.exists_eq_neg_ofNat h0
      refine ⟨(a : Int) * 2 ^ k, ?_⟩
      subst hk
      rw [zpow_neg, zpow_natCast]
      push_cast
      field_simp
    · have e1 : e = 1 := by omega
      have hL53 : Nat.log 2 a = 53 := by
        have : ilog2 (a : ℚ) - 52 = 1 := by
          rcases max_cases (ilog2 (a : ℚ) - 52) (-1074) with ⟨h1, _⟩ | ⟨h1, _⟩ <;> omega
        omega
      have h2 : 2 ^ 53 ≤ a := by
        have := Nat.pow_log_le_self 2 (x := a) (by
          intro h0; subst h0; simp at hL53)
        rwa [hL53] at this
      have ha' : a = 2 ^ 53 := le_antisymm ha53 h2
      refine ⟨2 ^ 52, ?_⟩
      subst e1 ha'
      norm_num
  obtain ⟨z, hz⟩ := hint
  unfold ofRat
  simp only [hq, if_false, habs, hz, roundHalfEven_intCast]
  have hv : (z : ℚ) * (2 : ℚ) ^ (max (ilog2 (a : ℚ) - 52) (-1074)) = a := by
    rw [← hz]; field_simp
  rw [hv]
  have hlt : ¬ ((2 : ℚ) ^ (1024 : Int) ≤ (a : ℚ)) := by
    have h1 : (a : ℚ) ≤ 2 ^ 53 := by exact_mod_cast ha53
    have h2 : (2 : ℚ) ^ 53 < (2 : ℚ) ^ (1024 : Int) := by norm_num
    linarith
  simp only [hlt, if_false]
  congr 1
  split
  · rename_i hneg
    have : n < 0 := by exact_mod_cast hneg
    have : |n| = -n := abs_of_neg this
    have : (a : Int) = -n := by rw [← ha, this]
    have : ((a : Int) : ℚ) = ((-n : Int) : ℚ) := by rw [this]
    push_cast at this; linarith
  · rename_i hneg
    have : 0 ≤ n := by
      have : ¬ (n < 0) := by intro h'; apply hneg; exact_mod_cast h'
      omega
    have : |n| = n := abs_of_nonneg this
    have : (a : Int) = n := by rw [← ha, this]
    have : ((a : Int) : ℚ) = ((n : Int) : ℚ) := by rw [this]
    push_cast at this; linarith

theorem ofInt_exact (n : Int) (h : |n| ≤ 2 ^ 53) : ofInt n = fin n := ofRat_exact n h

end Float64

/-! ## The minimum scan of `GenerateSummary` -/

/-- Invariant of the scan loop: after the records `done` the variable `best` is the first
minimum of `done`; the loop over `rest` keeps it. -/
theorem scanMin_invariant (less leq : CryptoMetrics → CryptoMetrics → Bool)
    (P : CryptoMetrics → Prop)
    (hrefl : ∀ a, P a → leq a a = true)
    (hle : ∀ a b, less a b = true → leq a b = true)
    (htot : ∀ a b, P a → P b → less a b = false → leq b a = true)
    (htrans : ∀ a b c, less a b = true → leq b c = true → less a c = true)
    (rest : List CryptoMetrics) :
    ∀ (done : List CryptoMetrics) (best : CryptoMetrics),
      (∀ r ∈ done ++ rest, P r) →
      (∃ pre post, done = pre ++ best :: post ∧ (∀ y ∈ done, leq best y = true) ∧
        (∀ y ∈ pre, less best y = true)) →
      ∃ pre post, done ++ rest = pre ++ scanMin less best rest :: post ∧
        (∀ y ∈ done ++ rest, leq (scanMin less best rest) y = true) ∧
        (∀ y ∈ pre, less (scanMin less best rest) y = true) := by
  induction rest with
  | nil =>
    intro done best _ h
    simpa [scanMin] using h
  | cons r rest ih =>
    intro done best hP ⟨pre, post, hdone, hmin, hpre⟩
    have hPr : P r := hP r (by simp)
    have hPbest : P best := hP best (by rw [hdone]; simp)
    have hstep := ih (done ++ [r]) (if less r best = true then r else best)
      (by intro x hx; apply hP; simpa using hx)
    have hgoal : scanMin less best (r :: rest)
        = scanMin less (if less r best = true then r else best) rest := by
      simp [scanMin]
    rw [hgoal]
    have happ : done ++ r :: rest = (done ++ [r]) ++ rest := by simp
    rw [happ]
    apply hstep
    by_cases hlt : less r best = true
    · simp only [hlt, if_true]
      refine ⟨done, [], rfl, ?_, ?_⟩
      · intro y hy
        rcases List.mem_append.mp hy with hy | hy
        · exact hle _ _ (htrans _ _ _ hlt (hmin y hy))
        · have : y = r := by simpa using hy
          subst this; exact hrefl _ hPr
      · intro y hy
        exact htrans _ _ _ hlt (hmin y hy)
    · simp only [hlt, if_false]
      refine ⟨pre, post ++ [r], by simp [hdone], ?_, hpre⟩
      intro y hy
      rcases List.mem_append.mp hy with hy | hy
      · exact hmin y hy
      · have : y = r := by simpa using hy
        subst this
        exact htot _ _ hPr hPbest (by simpa using hlt)

/-- The scan started on the first record returns the first minimum of the whole list. -/
theorem scanMin_first_min (less leq : CryptoMetrics → CryptoMetrics → Bool)
    (P : CryptoMetrics → Prop)
    (hrefl : ∀ a, P a → leq a a = true)
    (hle : ∀ a b, less a b = true → leq a b = true)
    (htot : ∀ a b, P a → P b → less a b = false → leq b a = true)
    (htrans : ∀ a b c, less a b = true → leq b c = true → less a c = true)
    (first : CryptoMetrics) (rest : List CryptoMetrics) (hP : ∀ r ∈ first :: rest, P r) :
    ∃ pre post, first :: rest = pre ++ scanMin less first rest :: post ∧
      (∀ y ∈ first :: rest, leq (scanMin less first rest) y = true) ∧
      (∀ y ∈ pre, less (scanMin less first rest) y = true) := by
  have h := scanMin_invariant less leq P hrefl hle htot htrans rest [first] first
    (by simpa using hP)
    ⟨[], [], rfl, by intro y hy; simp at hy; subst hy; exact hrefl _ (hP _ (by simp)),
      by intro y hy; simp at hy⟩
  simpa using h

/-- The scan on a float64 field, for records whose field is not NaN. -/
theorem scanMin_float (val : CryptoMetrics → Float64) (first : CryptoMetrics)
    (rest : List CryptoMetrics) (hP : ∀ r ∈ first :: rest, val r ≠ Float64.nan) :
    ∃ pre post, first :: rest
        = pre ++ scanMin (fun r b => Float64.lt (val r) (val b)) first rest :: post ∧
      (∀ y ∈ first :: rest,
        Float64.le (val (scanMin (fun r b => Float64.lt (val r) (val b)) first rest)) (val y)
          = true) ∧
      (∀ y ∈ pre,
        Float64.lt (val (scanMin (fun r b => Float64.lt (val r) (val b)) first rest)) (val y)
          = true) :=
  scanMin_first_min (fun r b => Float64.lt (val r) (val b))
    (fun r b => Float64.le (val r) (val b)) (fun r => val r ≠ Float64.nan)
    (fun _ ha => Float64.le_refl_of_ne_nan ha)
    (fun _ _ h => Float64.le_of_lt h)
    (fun _ _ ha hb h => Float64.le_of_not_lt ha hb h)
    (fun _ _ _ h₁ h₂ => Float64.lt_of_lt_of_le h₁ h₂) first rest hP

/-- The scan on an integer field. -/
theorem scanMin_int (val : CryptoMetrics → Int) (first : CryptoMetrics)
    (rest : List CryptoMetrics) :
    ∃ pre post, first :: rest
        = pre ++ scanMin (fun r b => decide (val r < val b)) first rest :: post ∧
      (∀ y ∈ first :: rest,
        intLe (val (scanMin (fun r b => decide (val r < val b)) first rest)) (val y) = true) ∧
      (∀ y ∈ pre,
        intLt (val (scanMin (fun r b => decide (val r < val b)) first rest)) (val y) = true) :=
  scanMin_first_min (fun r b => decide (val r < val b))
    (fun r b => intLe (val r) (val b)) (fun _ => True)
    (fun _ _ => by simp [intLe])
    (fun _ _ h => by simp only [intLe, decide_eq_true_eq] at h ⊢; exact h.le)
    (fun _ _ _ _ h => by simp only [intLe, decide_eq_true_eq, decide_eq_false_iff_not] at h ⊢; omega)
    (fun _ _ _ h₁ h₂ => by simp only [intLe, decide_eq_true_eq] at h₁ h₂ ⊢; omega)
    first rest (fun _ _ => trivial)

/-! ## C1 – C4: the metrics collector -/

theorem Float64.le_nan_right (a : Float64) : Float64.le a Float64.nan = false := by
  cases a <;> rfl

/-- On a float64 field the scan returns the first minimum exactly when no record's field is
NaN. -/
theorem isFirstMin_float_iff (val : CryptoMetrics → Float64) (first : CryptoMetrics)
    (rest : List CryptoMetrics) :
    IsFirstMin Float64.le Float64.lt val (first :: rest)
        (scanMin (fun r b => Float64.lt (val r) (val b)) first rest).Algorithm ↔
      ∀ r ∈ first :: rest, val r ≠ Float64.nan := by
  constructor
  · rintro ⟨pre, x, post, -, -, hmin, -⟩ r hr hnan
    have h := hmin r hr
    rw [hnan, Float64.le_nan_right] at h
    cases h
  · intro hP
    obtain ⟨pre, post, h1, h2, h3⟩ := scanMin_float val first rest hP
    exact ⟨pre, _, post, h1, rfl, h2, h3⟩

/-- On an integer field the scan returns the first minimum. -/
theorem isFirstMin_int (val : CryptoMetrics → Int) (first : CryptoMetrics)
    (rest : List CryptoMetrics) :
    IsFirstMin intLe intLt val (first :: rest)
        (scanMin (fun r b => decide (val r < val b)) first rest).Algorithm := by
  obtain ⟨pre, post, h1, h2, h3⟩ := scanMin_int val first rest
  exact ⟨pre, _, post, h1, rfl, h2, h3⟩

/-- C1, amended: for every non-empty sequence of records, each of the three size entries of
`GenerateSummary` names the first record, in insertion order, whose byte count is the
minimum over all records; and each of the three time entries names the first record whose
time is the minimum exactly when no record's value of that time metric is NaN. -/
theorem GenerateSummary_names_first_minimum (mc : MetricsCollector) (hne : mc.results ≠ []) :
    (IsFirstMin Float64.le Float64.lt (fun r => r.KeygenTimeMs) mc.results
        mc.GenerateSummary.FastestKeygen.Algorithm ↔
      ∀ r ∈ mc.results, r.KeygenTimeMs ≠ Float64.nan) ∧
    (IsFirstMin Float64.le Float64.lt (fun r => r.SignTimeMs) mc.results
        mc.GenerateSummary.FastestSign.Algorithm ↔
      ∀ r ∈ mc.results, r.SignTimeMs ≠ Float64.nan) ∧
    (IsFirstMin Float64.le Float64.lt (fun r => r.VerifyTimeMs) mc.results
        mc.GenerateSummary.FastestVerify.Algorithm ↔
      ∀ r ∈ mc.results, r.VerifyTimeMs ≠ Float64.nan) ∧
    IsFirstMin intLe intLt (fun r => r.PublicKeyBytes) mc.results
        mc.GenerateSummary.SmallestPubKey.Algorithm ∧
    IsFirstMin intLe intLt (fun r => r.PrivateKeyBytes) mc.results
        mc.GenerateSummary.SmallestPrivKey.Algorithm ∧
    IsFirstMin intLe intLt (fun r => r.SignatureBytes) mc.results
        mc.GenerateSummary.SmallestSig.Algorithm := by
  obtain ⟨results, config, startTime⟩ := mc
  cases results with
  | nil => exact absurd rfl hne
  | cons first rest =>
    exact ⟨isFirstMin_float_iff (fun r => r.KeygenTimeMs) first rest,
      isFirstMin_float_iff (fun r => r.SignTimeMs) first rest,
      isFirstMin_float_iff (fun r => r.VerifyTimeMs) first rest,
      isFirstMin_int (fun r => r.PublicKeyBytes) first rest,
      isFirstMin_int (fun r => r.PrivateKeyBytes) first rest,
      isFirstMin_int (fun r => r.SignatureBytes) first rest⟩

theorem tieRecords_timesNotNaN : ∀ r ∈ (sampleCollector tieRecords).results, r.TimesNotNaN := by
  intro r hr
  simp only [sampleCollector, tieRecords, List.mem_cons, List.mem_singleton,
    List.not_mem_nil, or_false] at hr
  rcases hr with rfl | rfl | rfl <;>
    simp [CryptoMetrics.TimesNotNaN, sampleRecord]

/-- C1, instance: on the keygen values `[A = 5, B = 3, C = 3]` the fastest-keygen entry names
`B`, the first record with the minimum, and the amended statement applies. -/
theorem GenerateSummary_names_first_minimum_witness :
    (sampleCollector tieRecords).GenerateSummary.FastestKeygen.Algorithm = "B" ∧
    IsFirstMin Float64.le Float64.lt (fun r => r.KeygenTimeMs) (sampleCollector tieRecords).results
      (sampleCollector tieRecords).GenerateSummary.FastestKeygen.Algorithm ∧
    IsFirstMin intLe intLt (fun r => r.PublicKeyBytes) (sampleCollector tieRecords).results
      (sampleCollector tieRecords).GenerateSummary.SmallestPubKey.Algorithm :=
  ⟨by decide,
   (GenerateSummary_names_first_minimum (sampleCollector tieRecords) (by decide)).1.mpr
      (fun r hr => (tieRecords_timesNotNaN r hr).1),
   (GenerateSummary_names_first_minimum (sampleCollector tieRecords) (by decide)).2.2.2.1⟩

/-- C1, as stated, fails: with keygen times `[A = NaN, B = 3]` the summary names `A`, and no
record's keygen time is at most that of every record, so the name is not that of a first
record attaining a minimum. -/
theorem GenerateSummary_first_minimum_fails_on_nan :
    (sampleCollector nanRecords).results ≠ [] ∧
    (sampleCollector nanRecords).GenerateSummary.FastestKeygen.Algorithm = "A" ∧
    ¬ IsFirstMin Float64.le Float64.lt (fun r => r.KeygenTimeMs) (sampleCollector nanRecords).results
        (sampleCollector nanRecords).GenerateSummary.FastestKeygen.Algorithm := by
  refine ⟨by decide, by decide, ?_⟩
  rintro ⟨pre, x, post, -, -, hmin, -⟩
  have h := hmin (sampleRecord "A" Float64.nan 91) (by simp [sampleCollector, nanRecords])
  cases hx : x.KeygenTimeMs <;> simp [hx, sampleRecord, Float64.le] at h

namespace Float64

/-- The conversion `float64(2^53 + 1)` rounds to `2^53`: the tie goes to the even significand. -/
theorem ofInt_two_pow_53_add_one : ofInt (2 ^ 53 + 1) = fin (2 ^ 53) := by
  have hlog : Nat.log 2 9007199254740993 = 53 := by
    rw [Nat.log_eq_iff (by norm_num)]; norm_num
  have hcast : (((2 ^ 53 + 1 : Int)) : ℚ) = 9007199254740993 := by norm_num
  have hil : ilog2 (9007199254740993 : ℚ) = 53 := by
    have hnum : (9007199254740993 : ℚ).num = 9007199254740993 := rfl
    have hden : (9007199254740993 : ℚ).den = 1 := rfl
    unfold ilog2
    simp only [hnum, hden]
    have : (9007199254740993 : Int).natAbs = 9007199254740993 := rfl
    rw [this, hlog]
    norm_num
  have hfloor : Int.floor ((9007199254740993 : ℚ) / 2) = 4503599627370496 := by
    rw [Int.floor_eq_iff]; norm_num
  have hround : roundHalfEven ((9007199254740993 : ℚ) / 2) = 4503599627370496 := by
    unfold roundHalfEven
    simp only [hfloor]
    norm_num
  unfold ofInt ofRat
  rw [hcast]
  have habs : |(9007199254740993 : ℚ)| = 9007199254740993 := abs_of_pos (by norm_num)
  simp only [habs, hil]
  have he : max ((53 : Int) - 52) (-1074) = 1 := by norm_num
  rw [he]
  simp only [zpow_one, hround]
  norm_num

end Float64

/-- The size entry of the scan on an integer field is the minimum entry exactly when the
smallest value converts to float64 without rounding. -/
theorem isMinEntry_int_iff (val : CryptoMetrics → Int) (first : CryptoMetrics)
    (rest : List CryptoMetrics) :
    IsMinEntry (fun r => Float64.fin (val r)) (first :: rest) "bytes"
      { Algorithm := (scanMin (fun r b => decide (val r < val b)) first rest).Algorithm,
        Value := Float64.ofInt (val (scanMin (fun r b => decide (val r < val b)) first rest)),
        Unit := "bytes" } ↔
      MinConvertsExactly val (first :: rest) := by
  obtain ⟨pre, post, h1, h2, -⟩ := scanMin_int val first rest
  have hmem : scanMin (fun r b => decide (val r < val b)) first rest ∈ first :: rest := by
    rw [h1]; simp
  have hmin : ∀ y ∈ first :: rest,
      val (scanMin (fun r b => decide (val r < val b)) first rest) ≤ val y := by
    intro y hy
    simpa [intLe] using h2 y hy
  constructor
  · rintro ⟨-, ⟨x, hx, -, hval⟩, hle⟩ r hr hrmin
    simp only at hval hle
    have hxs : val x ≤ val (scanMin (fun r b => decide (val r < val b)) first rest) := by
      have := hle _ hmem
      rw [hval] at this
      simp only [Float64.le, decide_eq_true_eq] at this
      exact_mod_cast this
    have hxeq : val x = val (scanMin (fun r b => decide (val r < val b)) first rest) :=
      le_antisymm hxs (hmin x hx)
    have hreq : val r = val (scanMin (fun r b => decide (val r < val b)) first rest) :=
      le_antisymm (hrmin _ hmem) (hmin r hr)
    rw [hreq, hval, hxeq]
  · intro hconv
    have hex := hconv _ hmem hmin
    refine ⟨rfl, ⟨_, hmem, rfl, hex⟩, ?_⟩
    intro y hy
    have := hmin y hy
    simp only [hex, Float64.le, decide_eq_true_eq]
    exact_mod_cast this

/-- The time entry of the scan on a float64 field is the minimum entry exactly when no
record's field is NaN. -/
theorem isMinEntry_float_iff (val : CryptoMetrics → Float64) (first : CryptoMetrics)
    (rest : List CryptoMetrics) :
    IsMinEntry val (first :: rest) "ms"
      { Algorithm := (scanMin (fun r b => Float64.lt (val r) (val b)) first rest).Algorithm,
        Value := val (scanMin (fun r b => Float64.lt (val r) (val b)) first rest),
        Unit := "ms" } ↔
      ∀ r ∈ first :: rest, val r ≠ Float64.nan := by
  constructor
  · rintro ⟨-, -, hle⟩ r hr hnan
    have h := hle r hr
    rw [hnan, Float64.le_nan_right] at h
    cases h
  · intro hP
    obtain ⟨pre, post, h1, h2, -⟩ := scanMin_float val first rest hP
    have hmem : scanMin (fun r b => Float64.lt (val r) (val b)) first rest ∈ first :: rest := by
      rw [h1]; simp
    exact ⟨rfl, ⟨_, hmem, rfl, rfl⟩, h2⟩

/-- Byte counts of absolute value at most `2^53` convert without rounding. -/
theorem minConvertsExactly_of_bound (val : CryptoMetrics → Int) (rs : List CryptoMetrics)
    (h : ∀ r ∈ rs, |val r| ≤ 2 ^ 53) : MinConvertsExactly val rs :=
  fun r hr _ => Float64.ofInt_exact _ (h r hr)

/-- C2, amended: for every non-empty sequence of records, each of the six summary entries
carries the name and the metric value of a record of the collector, a value at most the
metric of every record, and its unit ("ms" for the three times, "bytes" for the three
sizes), under one condition per entry that is also necessary: for a time entry, that no
record's value of that time metric is NaN; for a size entry, that the smallest value of that
byte count converts to float64 without rounding, as every count up to `2^53` does. -/
theorem GenerateSummary_entries_minimal (mc : MetricsCollector) (hne : mc.results ≠ []) :
    (IsMinEntry (fun r => r.KeygenTimeMs) mc.results "ms" mc.GenerateSummary.FastestKeygen ↔
      ∀ r ∈ mc.results, r.KeygenTimeMs ≠ Float64.nan) ∧
    (IsMinEntry (fun r => r.SignTimeMs) mc.results "ms" mc.GenerateSummary.FastestSign ↔
      ∀ r ∈ mc.results, r.SignTimeMs ≠ Float64.nan) ∧
    (IsMinEntry (fun r => r.VerifyTimeMs) mc.results "ms" mc.GenerateSummary.FastestVerify ↔
      ∀ r ∈ mc.results, r.VerifyTimeMs ≠ Float64.nan) ∧
    (IsMinEntry (fun r => Float64.fin r.PublicKeyBytes) mc.results "bytes"
        mc.GenerateSummary.SmallestPubKey ↔
      MinConvertsExactly (fun r => r.PublicKeyBytes) mc.results) ∧
    (IsMinEntry (fun r => Float64.fin r.PrivateKeyBytes) mc.results "bytes"
        mc.GenerateSummary.SmallestPrivKey ↔
      MinConvertsExactly (fun r => r.PrivateKeyBytes) mc.results) ∧
    (IsMinEntry (fun r => Float64.fin r.SignatureBytes) mc.results "bytes"
        mc.GenerateSummary.SmallestSig ↔
      MinConvertsExactly (fun r => r.SignatureBytes) mc.results) := by
  obtain ⟨results, config, startTime⟩ := mc
  cases results with
  | nil => exact absurd rfl hne
  | cons first rest =>
    exact ⟨isMinEntry_float_iff (fun r => r.KeygenTimeMs) first rest,
      isMinEntry_float_iff (fun r => r.SignTimeMs) first rest,
      isMinEntry_float_iff (fun r => r.VerifyTimeMs) first rest,
      isMinEntry_int_iff (fun r => r.PublicKeyBytes) first rest,
      isMinEntry_int_iff (fun r => r.PrivateKeyBytes) first rest,
      isMinEntry_int_iff (fun r => r.SignatureBytes) first rest⟩

theorem tieRecords_sizesExact : ∀ r ∈ (sampleCollector tieRecords).results, r.SizesExact := by
  intro r hr
  simp only [sampleCollector, tieRecords, List.mem_cons, List.mem_singleton,
    List.not_mem_nil, or_false] at hr
  rcases hr with rfl | rfl | rfl <;>
    simp [CryptoMetrics.SizesExact, sampleRecord, abs_le]

/-- C2, instance: the amended statement applied to the records `[A, B, C]` of the tie-break
example; the fastest-keygen entry is `B` with 3 ms, and the smallest-public-key entry is the
minimum entry. -/
theorem GenerateSummary_entries_minimal_witness :
    (sampleCollector tieRecords).GenerateSummary.FastestKeygen
      = { Algorithm := "B", Value := Float64.fin 3, Unit := "ms" } ∧
    IsMinEntry (fun r => r.KeygenTimeMs) (sampleCollector tieRecords).results "ms"
      (sampleCollector tieRecords).GenerateSummary.FastestKeygen ∧
    IsMinEntry (fun r => Float64.fin r.PublicKeyBytes) (sampleCollector tieRecords).results
      "bytes" (sampleCollector tieRecords).GenerateSummary.SmallestPubKey :=
  ⟨by decide,
   (GenerateSummary_entries_minimal (sampleCollector tieRecords) (by decide)).1.mpr
      (fun r hr => (tieRecords_timesNotNaN r hr).1),
   (GenerateSummary_entries_minimal (sampleCollector tieRecords) (by decide)).2.2.2.1.mpr
      (minConvertsExactly_of_bound _ _ (fun r hr => (tieRecords_sizesExact r hr).1))⟩

/-- C2, as stated, fails twice. With keygen times `[A = NaN, B = 3]` the fastest-keygen value
is NaN, which is not at most 3. With a single record of public-key size `2^53 + 1` the
smallest-public-key value is `2^53`, not the record's size. -/
theorem GenerateSummary_entries_minimal_fails :
    (¬ IsMinEntry (fun r => r.KeygenTimeMs) (sampleCollector nanRecords).results "ms"
        (sampleCollector nanRecords).GenerateSummary.FastestKeygen) ∧
    (¬ IsMinEntry (fun r => Float64.fin r.PublicKeyBytes) (sampleCollector hugeRecords).results
        "bytes" (sampleCollector hugeRecords).GenerateSummary.SmallestPubKey) := by
  constructor
  · rintro ⟨-, -, hmin⟩
    have h := hmin (sampleRecord "B" (Float64.fin 3) 1312)
      (by simp [sampleCollector, nanRecords])
    have hv : (sampleCollector nanRecords).GenerateSummary.FastestKeygen.Value = Float64.nan := by
      decide
    rw [hv] at h
    simp [Float64.le] at h
  · rintro ⟨-, ⟨x, hx, -, hval⟩, -⟩
    have hx' : x = sampleRecord "A" (Float64.fin 5) (2 ^ 53 + 1) := by
      simpa [sampleCollector, hugeRecords] using hx
    have hv : (sampleCollector hugeRecords).GenerateSummary.SmallestPubKey.Value
        = Float64.ofInt (2 ^ 53 + 1) := rfl
    rw [hv, Float64.ofInt_two_pow_53_add_one, hx'] at hval
    simp [sampleRecord] at hval
    norm_num at hval

/-- C3: on a collector holding no records `GenerateSummary` returns (it is a total function)
the zero-valued summary: each of the six entries has an empty algorithm name, value 0 and an
empty unit. -/
theorem GenerateSummary_empty (config : TestConfig) (startTime : Int) :
    (MetricsCollector.mk [] config startTime).GenerateSummary =
      { FastestKeygen := { Algorithm := "", Value := Float64.fin 0, Unit := "" },
        FastestSign := { Algorithm := "", Value := Float64.fin 0, Unit := "" },
        FastestVerify := { Algorithm := "", Value := Float64.fin 0, Unit := "" },
        SmallestPubKey := { Algorithm := "", Value := Float64.fin 0, Unit := "" },
        SmallestPrivKey := { Algorithm := "", Value := Float64.fin 0, Unit := "" },
        SmallestSig := { Algorithm := "", Value := Float64.fin 0, Unit := "" } } :=
  rfl

theorem foldl_AddResult_results (rs : List CryptoMetrics) :
    ∀ mc : MetricsCollector,
      (rs.foldl MetricsCollector.AddResult mc).GetResults = mc.GetResults ++ rs := by
  induction rs with
  | nil => intro mc; simp
  | cons r rs ih =>
    intro mc
    rw [List.foldl_cons, ih]
    simp [MetricsCollector.AddResult, MetricsCollector.GetResults]

/-- C4: after `AddResult(r)` the sequence `GetResults` returns is the previous one with `r`
appended (one longer, earlier records unchanged and in place) and the test configuration is
unchanged; adding `r1..rn` to a new collector makes `GetResults` return `[r1..rn]`. -/
theorem AddResult_appends (mc : MetricsCollector) (r : CryptoMetrics)
    (rs : List CryptoMetrics) (testMessage : String) (iterations : Int)
    (algorithms : List String) (now : Int) :
    (mc.AddResult r).GetResults = mc.GetResults ++ [r] ∧
    (mc.AddResult r).GetResults.length = mc.GetResults.length + 1 ∧
    (∀ i (h : i < mc.GetResults.length),
      (mc.AddResult r).GetResults[i]? = some (mc.GetResults.get ⟨i, h⟩)) ∧
    (mc.AddResult r).config = mc.config ∧
    (rs.foldl MetricsCollector.AddResult
        (NewMetricsCollector testMessage iterations algorithms now)).GetResults = rs := by
  refine ⟨rfl, by simp [MetricsCollector.AddResult, MetricsCollector.GetResults], ?_, rfl, ?_⟩
  · intro i h
    simp only [MetricsCollector.AddResult, MetricsCollector.GetResults] at h ⊢
    rw [List.getElem?_append_left h]
    simp [List.getElem?_eq_getElem h]
  · rw [foldl_AddResult_results]
    simp [NewMetricsCollector, MetricsCollector.GetResults]

/-! ## The benchmark harness: trials and loops -/

theorem floorMicrosecond_ge (t : Int) : 1000 ≤ floorMicrosecond t := by
  unfold floorMicrosecond; split <;> omega

theorem keygenTrial_ok_iff {Key : Type} (env : Env Key) (alg : SignatureAlgorithm) (i : Nat)
    (t : Int) :
    keygenTrial env alg i = .ok t ↔
      (∃ m, env.NewEnhancedMSP (.keygen i) alg = .ok m) ∧
        t = floorMicrosecond (env.elapsed (.keygen i)) := by
  unfold keygenTrial
  cases h : env.NewEnhancedMSP (.keygen i) alg <;> simp [eq_comm]

theorem signTrial_ok_iff {Key : Type} (env : Env Key) (alg : SignatureAlgorithm)
    (testMessage : Bytes) (i : Nat) (t : Int) (sig : Bytes) :
    signTrial env alg testMessage i = .ok (t, sig) ↔
      (∃ m, env.NewEnhancedMSP (.signNew i) alg = .ok m ∧
        env.Sign (.sign i) m testMessage = .ok sig) ∧
        t = floorMicrosecond (env.elapsed (.sign i)) := by
  unfold signTrial
  cases h : env.NewEnhancedMSP (.signNew i) alg with
  | error e => simp
  | ok m =>
    cases h' : env.Sign (.sign i) m testMessage with
    | error e => simp [h']
    | ok s => simp [h', eq_comm, and_comm]

theorem verifyTrial_ok_iff {Key : Type} (env : Env Key) (alg : SignatureAlgorithm)
    (testMessage : Bytes) (i : Nat) (t : Int) :
    verifyTrial env alg testMessage i = .ok t ↔
      (∃ verifyMSP signingMSP sig publicKeyBytes verifyMSP',
        env.NewEnhancedMSP (.verifyNewVerifier i) alg = .ok verifyMSP ∧
        env.NewEnhancedMSP (.verifyNewSigner i) alg = .ok signingMSP ∧
        env.Sign (.verifySign i) signingMSP (uniqueMessage testMessage i (env.unixNano i))
          = .ok sig ∧
        env.GetPublicKeyBytes (.verifyGetPub i) signingMSP = .ok publicKeyBytes ∧
        env.setPublicKeyFromBytes (.verifySetPub i) verifyMSP publicKeyBytes = .ok verifyMSP' ∧
        env.Verify (.verify1 i) verifyMSP' (uniqueMessage testMessage i (env.unixNano i)) sig
          = .ok true ∧
        env.Verify (.verify2 i) verifyMSP' (uniqueMessage testMessage i (env.unixNano i)) sig
          = .ok true) ∧
      t = max (floorMicrosecond (env.elapsed (.verify1 i))) (env.elapsed (.verify2 i)) := by
  have hmax : ∀ a b : Int, (if b > a then b else a) = max a b := by
    intro a b; rw [max_def]; split <;> split <;> omega
  unfold verifyTrial
  cases h1 : env.NewEnhancedMSP (.verifyNewVerifier i) alg with
  | error e => simp
  | ok v =>
    cases h2 : env.NewEnhancedMSP (.verifyNewSigner i) alg with
    | error e => simp
    | ok s =>
      cases h3 : env.Sign (.verifySign i) s (uniqueMessage testMessage i (env.unixNano i)) with
      | error e => simp [h3]
      | ok sig =>
        cases h4 : env.GetPublicKeyBytes (.verifyGetPub i) s with
        | error e => simp [h3, h4]
        | ok pk =>
          cases h5 : env.setPublicKeyFromBytes (.verifySetPub i) v pk with
          | error e => simp [h3, h4, h5]
          | ok v' =>
            cases h6 : env.Verify (.verify1 i) v'
                (uniqueMessage testMessage i (env.unixNano i)) sig with
            | error e => simp [h3, h4, h5, h6]
            | ok b1 =>
              cases b1 with
              | false => simp [h3, h4, h5, h6]
              | true =>
                cases h7 : env.Verify (.verify2 i) v'
                    (uniqueMessage testMessage i (env.unixNano i)) sig with
                | error e => simp [h3, h4, h5, h6, h7]
                | ok b2 =>
                  cases b2 with
                  | false => simp [h3, h4, h5, h6, h7]
                  | true => simp [h3, h4, h5, h6, h7, hmax, eq_comm]

theorem keygenLoop_ok {Key : Type} (env : Env Key) (alg : SignatureAlgorithm) :
    ∀ (n : Nat) (ts : List Int), keygenLoop env alg n = .ok ts →
      ts.length = n ∧ ∀ i, i < n → ∃ t, keygenTrial env alg i = .ok t ∧ ts[i]? = some t := by
  intro n
  induction n with
  | zero =>
    intro ts h
    simp only [keygenLoop, Except.ok.injEq] at h
    subst h
    exact ⟨rfl, fun i hi => absurd hi (Nat.not_lt_zero i)⟩
  | succ n ih =>
    intro ts h
    simp only [keygenLoop] at h
    cases hl : keygenLoop env alg n with
    | error e => simp [hl] at h
    | ok ts0 =>
      cases ht : keygenTrial env alg n with
      | error e => simp [hl, ht] at h
      | ok t =>
        simp only [hl, ht, Except.ok.injEq] at h
        subst h
        obtain ⟨hlen, hall⟩ := ih ts0 hl
        refine ⟨by simp [hlen], ?_⟩
        intro i hi
        rcases Nat.lt_succ_iff_lt_or_eq.mp hi with hi' | rfl
        · obtain ⟨t', ht', hget⟩ := hall i hi'
          exact ⟨t', ht', by rw [List.getElem?_append_left (by omega)]; exact hget⟩
        · exact ⟨t, ht, by rw [List.getElem?_append_right (by omega)]; simp [hlen]⟩

theorem signLoop_ok {Key : Type} (env : Env Key) (alg : SignatureAlgorithm)
    (testMessage : Bytes) :
    ∀ (n : Nat) (ts : List Int) (sig : Bytes), signLoop env alg testMessage n = .ok (ts, sig) →
      ts.length = n ∧
      ∀ i, i < n → ∃ t s, signTrial env alg testMessage i = .ok (t, s) ∧ ts[i]? = some t := by
  intro n
  induction n with
  | zero =>
    intro ts sig h
    simp only [signLoop, Except.ok.injEq, Prod.mk.injEq] at h
    obtain ⟨h, -⟩ := h
    subst h
    exact ⟨rfl, fun i hi => absurd hi (Nat.not_lt_zero i)⟩
  | succ n ih =>
    intro ts sig h
    simp only [signLoop] at h
    cases hl : signLoop env alg testMessage n with
    | error e => simp [hl] at h
    | ok p0 =>
      obtain ⟨ts0, sig0⟩ := p0
      cases ht : signTrial env alg testMessage n with
      | error e => simp [hl, ht] at h
      | ok p =>
        obtain ⟨t, s⟩ := p
        simp only [hl, ht, Except.ok.injEq, Prod.mk.injEq] at h
        obtain ⟨h, -⟩ := h
        subst h
        obtain ⟨hlen, hall⟩ := ih ts0 sig0 hl
        refine ⟨by simp [hlen], ?_⟩
        intro i hi
        rcases Nat.lt_succ_iff_lt_or_eq.mp hi with hi' | rfl
        · obtain ⟨t', s', ht', hget⟩ := hall i hi'
          exact ⟨t', s', ht', by rw [List.getElem?_append_left (by omega)]; exact hget⟩
        · exact ⟨t, s, ht, by rw [List.getElem?_append_right (by omega)]; simp [hlen]⟩

theorem verifyLoop_ok {Key : Type} (env : Env Key) (alg : SignatureAlgorithm)
    (testMessage : Bytes) :
    ∀ (n : Nat) (ts : List Int), verifyLoop env alg testMessage n = .ok ts →
      ts.length = n ∧
      ∀ i, i < n → ∃ t, verifyTrial env alg testMessage i = .ok t ∧ ts[i]? = some t := by
  intro n
  induction n with
  | zero =>
    intro ts h
    simp only [verifyLoop, Except.ok.injEq] at h
    subst h
    exact ⟨rfl, fun i hi => absurd hi (Nat.not_lt_zero i)⟩
  | succ n ih =>
    intro ts h
    simp only [verifyLoop] at h
    cases hl : verifyLoop env alg testMessage n with
    | error e => simp [hl] at h
    | ok ts0 =>
      cases ht : verifyTrial env alg testMessage n with
      | error e => simp [hl, ht] at h
      | ok t =>
        simp only [hl, ht, Except.ok.injEq] at h
        subst h
        obtain ⟨hlen, hall⟩ := ih ts0 hl
        refine ⟨by simp [hlen], ?_⟩
        intro i hi
        rcases Nat.lt_succ_iff_lt_or_eq.mp hi with hi' | rfl
        · obtain ⟨t', ht', hget⟩ := hall i hi'
          exact ⟨t', ht', by rw [List.getElem?_append_left (by omega)]; exact hget⟩
        · exact ⟨t, ht, by rw [List.getElem?_append_right (by omega)]; simp [hlen]⟩

/-- Every element of a list sits at some index. -/
theorem exists_index_of_mem {α : Type} {l : List α} {a : α} (h : a ∈ l) :
    ∃ i, i < l.length ∧ l[i]? = some a := by
  obtain ⟨i, hi, hget⟩ := List.getElem_of_mem h
  exact ⟨i, hi, by rw [List.getElem?_eq_getElem hi, hget]⟩

/-! ## C5: the one-microsecond floor -/

/-- The three timing arrays hold one value per trial, each at least 1000 ns. -/
theorem stored_timings_floor {Key : Type} (env : Env Key)
    (alg : SignatureAlgorithm) (testMessage : Bytes) (n : Nat) :
    (∀ ts, keygenLoop env alg n = .ok ts → ts.length = n ∧ ∀ t ∈ ts, 1000 ≤ t) ∧
    (∀ ts sig, signLoop env alg testMessage n = .ok (ts, sig) →
      ts.length = n ∧ ∀ t ∈ ts, 1000 ≤ t) ∧
    (∀ ts, verifyLoop env alg testMessage n = .ok ts → ts.length = n ∧ ∀ t ∈ ts, 1000 ≤ t) := by
  refine ⟨?_, ?_, ?_⟩
  · intro ts h
    obtain ⟨hlen, hall⟩ := keygenLoop_ok env alg n ts h
    refine ⟨hlen, fun t ht => ?_⟩
    obtain ⟨i, hi, hget⟩ := exists_index_of_mem ht
    obtain ⟨t', ht', hget'⟩ := hall i (hlen ▸ hi)
    have : t = t' := by rw [hget] at hget'; exact Option.some.inj hget'
    subst this
    rw [keygenTrial_ok_iff] at ht'
    rw [ht'.2]; exact floorMicrosecond_ge _
  · intro ts sig h
    obtain ⟨hlen, hall⟩ := signLoop_ok env alg testMessage n ts sig h
    refine ⟨hlen, fun t ht => ?_⟩
    obtain ⟨i, hi, hget⟩ := exists_index_of_mem ht
    obtain ⟨t', s, ht', hget'⟩ := hall i (hlen ▸ hi)
    have : t = t' := by rw [hget] at hget'; exact Option.some.inj hget'
    subst this
    rw [signTrial_ok_iff] at ht'
    rw [ht'.2]; exact floorMicrosecond_ge _
  · intro ts h
    obtain ⟨hlen, hall⟩ := verifyLoop_ok env alg testMessage n ts h
    refine ⟨hlen, fun t ht => ?_⟩
    obtain ⟨i, hi, hget⟩ := exists_index_of_mem ht
    obtain ⟨t', ht', hget'⟩ := hall i (hlen ▸ hi)
    have : t = t' := by rw [hget] at hget'; exact Option.some.inj hget'
    subst this
    rw [verifyTrial_ok_iff] at ht'
    rw [ht'.2]
    exact le_trans (floorMicrosecond_ge _) (le_max_left _ _)

/-- C5: whatever durations are measured (zero included), every timing stored in the keygen,
sign and verify arrays of `Benchmark` is at least one microsecond (1000 ns), one timing per
trial; for verification the stored value is the one kept after the floored first measurement
is combined with the second. -/
theorem stored_timings_at_least_microsecond {Key : Type} (env : Env Key)
    (alg : SignatureAlgorithm) (testMessage : Bytes) (n : Nat) :
    (∀ ts, keygenLoop env alg n = .ok ts → ts.length = n ∧ ∀ t ∈ ts, 1000 ≤ t) ∧
    (∀ ts sig, signLoop env alg testMessage n = .ok (ts, sig) →
      ts.length = n ∧ ∀ t ∈ ts, 1000 ≤ t) ∧
    (∀ ts, verifyLoop env alg testMessage n = .ok ts → ts.length = n ∧ ∀ t ∈ ts, 1000 ≤ t) :=
  stored_timings_floor env alg testMessage n

/-- C5, instance: with every measured duration zero, two verification trials store
`[1000, 1000]`. -/
theorem stored_timings_at_least_microsecond_witness :
    verifyLoop (sampleEnv (fun _ => 0) (fun _ => .ok true)) ECDSA [] 2 = .ok [1000, 1000] ∧
    ([1000, 1000] : List Int).length = 2 ∧ ∀ t ∈ ([1000, 1000] : List Int), 1000 ≤ t :=
  ⟨rfl, (stored_timings_at_least_microsecond (sampleEnv (fun _ => 0) (fun _ => .ok true))
      ECDSA [] 2).2.2 [1000, 1000] rfl⟩

/-! ## C6: the averaged durations -/

theorem wrapInt64_add_wrapInt64 (x d : Int) : wrapInt64 (wrapInt64 x + d) = wrapInt64 (x + d) := by
  unfold wrapInt64; omega

theorem wrapInt64_of_fits (x : Int) (h : -2 ^ 63 ≤ x ∧ x < 2 ^ 63) : wrapInt64 x = x := by
  unfold wrapInt64; omega

theorem foldl_wrapInt64 (ds : List Int) :
    ∀ acc : Int, ds.foldl (fun total d => wrapInt64 (total + d)) (wrapInt64 acc)
      = wrapInt64 (acc + ds.sum) := by
  induction ds with
  | nil => intro acc; simp
  | cons d ds ih =>
    intro acc
    rw [List.foldl_cons, wrapInt64_add_wrapInt64, ih, List.sum_cons, add_assoc]

/-- The value `calculateAverageDuration` computes: the wrapped sum, divided with truncation. -/
theorem calculateAverageDuration_eq (ds : List Int) (hne : ds ≠ []) :
    calculateAverageDuration ds = Int.tdiv (wrapInt64 ds.sum) (ds.length : Int) := by
  have hlen : ds.length ≠ 0 := by simpa using hne
  have h0 : (0 : Int) = wrapInt64 0 := by unfold wrapInt64; omega
  unfold calculateAverageDuration
  simp only [hlen, if_false]
  rw [h0, foldl_wrapInt64, zero_add]

theorem tdiv_eq_truncToInt (a : Int) (n : Nat) (hn : 0 < n) :
    Int.tdiv a (n : Int) = truncToInt ((a : ℚ) / (n : ℚ)) := by
  have hnq : (0 : ℚ) < n := by exact_mod_cast hn
  unfold truncToInt
  by_cases ha : 0 ≤ a
  · have hq : (0 : ℚ) ≤ (a : ℚ) / n := div_nonneg (by exact_mod_cast ha) hnq.le
    rw [if_pos hq, Rat.floor_intCast_div_natCast, Int.tdiv_eq_ediv ha (by omega)]
  · have ha' : a < 0 := by omega
    have hq : ¬ (0 : ℚ) ≤ (a : ℚ) / n := by
      rw [not_le]; exact div_neg_of_neg_of_pos (by exact_mod_cast ha') hnq
    rw [if_neg hq]
    have h1 : Int.tdiv a n = -(Int.tdiv (-a) n) := by rw [Int.neg_tdiv, neg_neg]
    rw [h1, Int.tdiv_eq_ediv (by omega) (by omega), ← Rat.floor_intCast_div_natCast,
      Int.ceil]
    congr 2
    push_cast
    ring

/-- A record is returned exactly when the three loops and the two key exports succeed, and
it is built from their results. -/
theorem Benchmark_ok_iff {Key : Type} (env : Env Key) (msp : EnhancedMSP Key)
    (testMessage : Bytes) (n : Nat) (r : CryptoMetrics) :
    Benchmark env msp testMessage n = .ok r ↔
      ∃ keygenTimes signTimes signature verifyTimes publicKeyBytes privateKeyBytes,
        keygenLoop env msp.algorithm n = .ok keygenTimes ∧
        signLoop env msp.algorithm testMessage n = .ok (signTimes, signature) ∧
        verifyLoop env msp.algorithm testMessage n = .ok verifyTimes ∧
        env.GetPublicKeyBytes .sizePub msp = .ok publicKeyBytes ∧
        env.GetPrivateKeyBytes .sizePriv msp = .ok privateKeyBytes ∧
        r = { Algorithm := msp.algorithm.String,
              KeygenTimeMs := durationMs (calculateAverageDuration keygenTimes),
              SignTimeMs := durationMs (calculateAverageDuration signTimes),
              VerifyTimeMs := durationMs (calculateAverageDuration verifyTimes),
              PublicKeyBytes := publicKeyBytes.length,
              PrivateKeyBytes := privateKeyBytes.length,
              SignatureBytes := signature.length,
              Timestamp := env.timestamp } := by
  unfold Benchmark
  cases h1 : keygenLoop env msp.algorithm n with
  | error e => simp
  | ok ks =>
    cases h2 : signLoop env msp.algorithm testMessage n with
    | error e => simp
    | ok p =>
      obtain ⟨ss, sig⟩ := p
      cases h3 : verifyLoop env msp.algorithm testMessage n with
      | error e => simp
      | ok vs =>
        cases h4 : env.GetPublicKeyBytes .sizePub msp with
        | error e => simp
        | ok pub =>
          cases h5 : env.GetPrivateKeyBytes .sizePriv msp with
          | error e => simp
          | ok priv =>
            simp only [Except.ok.injEq, Prod.mk.injEq, exists_and_left, exists_eq_left']
            constructor
            · intro h; exact ⟨ss, sig, ⟨rfl, rfl⟩, h.symm⟩
            · rintro ⟨ss', sig', ⟨rfl, rfl⟩, h⟩; exact h.symm

/-- C6, amended: for every non-empty sequence of trial durations whose sum fits in int64,
`calculateAverageDuration` returns the sum divided by the number of durations with the
quotient truncated toward zero, that is the arithmetic mean truncated to whole nanoseconds;
and the keygen, sign and verify times of a record produced by `Benchmark` are
`float64(avg) / 1e6` for that truncated mean `avg` of the stored keygen, sign and verify
timings. -/
theorem calculateAverageDuration_truncated_mean {Key : Type} (durations : List Int)
    (hne : durations ≠ []) (hfit : -2 ^ 63 ≤ durations.sum ∧ durations.sum < 2 ^ 63)
    (env : Env Key) (msp : EnhancedMSP Key) (testMessage : Bytes) (n : Nat)
    (r : CryptoMetrics) (hr : Benchmark env msp testMessage n = .ok r) :
    calculateAverageDuration durations = Int.tdiv durations.sum (durations.length : Int) ∧
    calculateAverageDuration durations = truncToInt (arithmeticMean durations) ∧
    ∃ keygenTimes signTimes signature verifyTimes,
      keygenLoop env msp.algorithm n = .ok keygenTimes ∧
      signLoop env msp.algorithm testMessage n = .ok (signTimes, signature) ∧
      verifyLoop env msp.algorithm testMessage n = .ok verifyTimes ∧
      r.KeygenTimeMs = Float64.div (Float64.ofInt (calculateAverageDuration keygenTimes))
        (Float64.fin 1000000) ∧
      r.SignTimeMs = Float64.div (Float64.ofInt (calculateAverageDuration signTimes))
        (Float64.fin 1000000) ∧
      r.VerifyTimeMs = Float64.div (Float64.ofInt (calculateAverageDuration verifyTimes))
        (Float64.fin 1000000) := by
  have hlen : 0 < durations.length := List.length_pos.mpr hne
  have h1 : calculateAverageDuration durations
      = Int.tdiv durations.sum (durations.length : Int) := by
    rw [calculateAverageDuration_eq durations hne, wrapInt64_of_fits _ hfit]
  refine ⟨h1, ?_, ?_⟩
  · rw [h1, tdiv_eq_truncToInt _ _ hlen]
    simp [arithmeticMean]
  · obtain ⟨ks, ss, sig, vs, pub, priv, hk, hs, hv, -, -, hrec⟩ :=
      (Benchmark_ok_iff env msp testMessage n r).mp hr
    exact ⟨ks, ss, sig, vs, hk, hs, hv, by rw [hrec]; rfl, by rw [hrec]; rfl, by rw [hrec]; rfl⟩

/-- C6, instance: durations `[1000, 2001]` average to 1500, and a two-trial benchmark with
measured durations of 1500 ns yields times `float64(1500) / 1e6`. -/
theorem calculateAverageDuration_truncated_mean_witness :
    calculateAverageDuration [1000, 2001] = 1500 ∧
    (∃ r, Benchmark (sampleEnv (fun _ => 1500) (fun _ => .ok true)) sampleMSP [] 2 = .ok r ∧
      r.KeygenTimeMs = Float64.div (Float64.ofInt 1500) (Float64.fin 1000000)) ∧
    calculateAverageDuration [1000, 2001] = truncToInt (arithmeticMean [1000, 2001]) :=
  ⟨by decide,
   ⟨_, rfl, rfl⟩,
   (calculateAverageDuration_truncated_mean [1000, 2001] (by decide) (by decide)
      (sampleEnv (fun _ => 1500) (fun _ => .ok true)) sampleMSP [] 2 _ rfl).2.1⟩

/-- C6, as stated, fails: the durations `[1, 2]` have arithmetic mean `3/2` but
`calculateAverageDuration` returns `1`; and the durations `[2^62, 2^62]`, whose sum leaves
int64, have mean `2^62` but the function returns `-2^62`. -/
theorem calculateAverageDuration_not_mean :
    calculateAverageDuration [1, 2] = 1 ∧ arithmeticMean [1, 2] = 3 / 2 ∧
    ((calculateAverageDuration [1, 2] : Int) : ℚ) ≠ arithmeticMean [1, 2] ∧
    calculateAverageDuration [2 ^ 62, 2 ^ 62] = -2 ^ 62 ∧
    arithmeticMean [2 ^ 62, 2 ^ 62] = 2 ^ 62 := by
  have h1 : calculateAverageDuration [1, 2] = 1 := by decide
  have h2 : arithmeticMean [1, 2] = 3 / 2 := by norm_num [arithmeticMean]
  refine ⟨h1, h2, ?_, by decide, by norm_num [arithmeticMean]⟩
  rw [h1, h2]; norm_num

/-! ## C7: the verification timing kept -/

/-- C7, amended: in every verification trial in which both verify calls succeed, the timing
stored is the larger of the first measured duration raised to one microsecond and the second
measured duration; it is the larger of the two measured durations whenever at least one of
them is one microsecond or more. -/
theorem verify_timing_larger_of_floored_first_and_second {Key : Type} (env : Env Key)
    (alg : SignatureAlgorithm) (testMessage : Bytes) (n : Nat) (ts : List Int)
    (h : verifyLoop env alg testMessage n = .ok ts) (i : Nat) (hi : i < n) :
    ts[i]? = some (max (floorMicrosecond (env.elapsed (.verify1 i))) (env.elapsed (.verify2 i))) ∧
    (1000 ≤ max (env.elapsed (.verify1 i)) (env.elapsed (.verify2 i)) →
      ts[i]? = some (max (env.elapsed (.verify1 i)) (env.elapsed (.verify2 i)))) := by
  obtain ⟨-, hall⟩ := verifyLoop_ok env alg testMessage n ts h
  obtain ⟨t, ht, hget⟩ := hall i hi
  rw [verifyTrial_ok_iff] at ht
  have h1 : ts[i]? = some (max (floorMicrosecond (env.elapsed (.verify1 i)))
      (env.elapsed (.verify2 i))) := by rw [hget, ht.2]
  refine ⟨h1, fun hge => ?_⟩
  rw [h1]
  congr 1
  unfold floorMicrosecond
  rcases le_max_iff.mp hge with h' | h'
  · rw [if_neg (by omega)]
  · split
    · rw [max_eq_right (by omega), max_eq_right (by omega)]
    · rfl

/-- C7, instance: with measured durations of 5000 ns two trials store 5000 ns each. -/
theorem verify_timing_larger_of_floored_first_and_second_witness :
    verifyLoop (sampleEnv (fun _ => 5000) (fun _ => .ok true)) ECDSA [] 2
      = .ok [5000, 5000] ∧
    ([5000, 5000] : List Int)[1]? = some (max (floorMicrosecond 5000) 5000) :=
  ⟨rfl, (verify_timing_larger_of_floored_first_and_second
      (sampleEnv (fun _ => 5000) (fun _ => .ok true)) ECDSA [] 2 [5000, 5000] rfl 1
      (by decide)).1⟩

/-- C7, as stated, fails: when the two verify calls succeed with measured durations of
300 ns and 700 ns, the timing stored is 1000 ns, not the larger measured duration 700 ns. -/
theorem verify_timing_not_larger_of_two :
    verifyTrial (sampleEnv subMicrosecondElapsed (fun _ => .ok true)) ECDSA [] 0
      = .ok 1000 ∧
    (sampleEnv subMicrosecondElapsed (fun _ => .ok true)).elapsed (.verify1 0) = 300 ∧
    (sampleEnv subMicrosecondElapsed (fun _ => .ok true)).elapsed (.verify2 0) = 700 ∧
    (1000 : Int) ≠ max 300 700 :=
  ⟨rfl, rfl, rfl, by decide⟩

/-! ## C8, C9: failures abort the benchmark -/

theorem Benchmark_ok_trials {Key : Type} (env : Env Key) (msp : EnhancedMSP Key)
    (testMessage : Bytes) (n : Nat) (r : CryptoMetrics)
    (h : Benchmark env msp testMessage n = .ok r) (i : Nat) (hi : i < n) :
    TrialOperationsSucceed env msp.algorithm testMessage i := by
  obtain ⟨ks, ss, sig, vs, pub, priv, hk, hs, hv, -, -, -⟩ :=
    (Benchmark_ok_iff env msp testMessage n r).mp h
  obtain ⟨tk, htk, -⟩ := (keygenLoop_ok env msp.algorithm n ks hk).2 i hi
  obtain ⟨tsg, s, hts, -⟩ := (signLoop_ok env msp.algorithm testMessage n ss sig hs).2 i hi
  obtain ⟨tv, htv, -⟩ := (verifyLoop_ok env msp.algorithm testMessage n vs hv).2 i hi
  rw [keygenTrial_ok_iff] at htk
  rw [signTrial_ok_iff] at hts
  rw [verifyTrial_ok_iff] at htv
  obtain ⟨⟨v, sg, sg', pk, v', h1, h2, h3, h4, h5, h6, -⟩, -⟩ := htv
  exact ⟨htk.1, ⟨_, s, hts.1.choose_spec⟩, ⟨v, sg, sg', pk, v', h1, h2, h3, h4, h5, h6⟩⟩

theorem not_fails_of_succeed {Key : Type} (env : Env Key) (alg : SignatureAlgorithm)
    (testMessage : Bytes) (i : Nat) (hs : TrialOperationsSucceed env alg testMessage i) :
    ¬ TrialOperationFails env alg testMessage i := by
  obtain ⟨⟨m, hm⟩, ⟨m', sig', hm', hsig'⟩, ⟨v, s, sig, pk, v', h1, h2, h3, h4, h5, h6⟩⟩ := hs
  rintro (⟨e, he⟩ | ⟨e, he⟩ | ⟨m0, e, h0, he⟩ | ⟨e, he⟩ | ⟨e, he⟩ | ⟨s0, e, h0, he⟩ |
    ⟨s0, e, h0, he⟩ | ⟨v0, s0, pk0, e, hv0, hs0, hpk0, he⟩ |
    ⟨v0, s0, sig0, pk0, v0', hv0, hs0, hsig0, hpk0, hv0', he⟩)
  · rw [hm] at he; cases he
  · rw [hm'] at he; cases he
  · rw [hm'] at h0; cases h0; rw [hsig'] at he; cases he
  · rw [h1] at he; cases he
  · rw [h2] at he; cases he
  · rw [h2] at h0; cases h0; rw [h3] at he; cases he
  · rw [h2] at h0; cases h0; rw [h4] at he; cases he
  · rw [h1] at hv0; cases hv0; rw [h2] at hs0; cases hs0; rw [h4] at hpk0; cases hpk0
    rw [h5] at he; cases he
  · rw [h1] at hv0; cases hv0; rw [h2] at hs0; cases hs0; rw [h3] at hsig0; cases hsig0
    rw [h4] at hpk0; cases hpk0; rw [h5] at hv0'; cases hv0'
    rcases he with he | ⟨e, he⟩ <;> (rw [h6] at he; cases he)

/-- C8: with the scheme operations arbitrary functions that may fail, for every iteration
count and message: if in some trial an instance construction, a signing call, the public-key
export, the public-key import or the measured verify call returns an error, or the measured
verify call returns false, then `Benchmark` returns an error and no record; and a record is
returned only when in every trial all these operations succeeded and the measured verify
returned true. -/
theorem Benchmark_error_on_any_failure {Key : Type} (env : Env Key) (msp : EnhancedMSP Key)
    (testMessage : Bytes) (n : Nat) :
    (∀ i, i < n → TrialOperationFails env msp.algorithm testMessage i →
      ∃ e, Benchmark env msp testMessage n = .error e) ∧
    (∀ r, Benchmark env msp testMessage n = .ok r →
      ∀ i, i < n → TrialOperationsSucceed env msp.algorithm testMessage i) := by
  refine ⟨?_, fun r h i hi => Benchmark_ok_trials env msp testMessage n r h i hi⟩
  intro i hi hfail
  cases h : Benchmark env msp testMessage n with
  | error e => exact ⟨e, rfl⟩
  | ok r =>
    exact absurd hfail
      (not_fails_of_succeed env msp.algorithm testMessage i
        (Benchmark_ok_trials env msp testMessage n r h i hi))

/-- C8, instance: when the measured verify call of trial 1 returns false, a three-trial
benchmark returns an error. -/
theorem Benchmark_error_on_any_failure_witness :
    TrialOperationFails (sampleEnv (fun _ => 5000) measuredVerifyFalse) sampleMSP.algorithm [] 1 ∧
    ∃ e, Benchmark (sampleEnv (fun _ => 5000) measuredVerifyFalse) sampleMSP [] 3 = .error e :=
  have hfail : TrialOperationFails (sampleEnv (fun _ => 5000) measuredVerifyFalse)
      sampleMSP.algorithm [] 1 :=
    Or.inr (Or.inr (Or.inr (Or.inr (Or.inr (Or.inr (Or.inr (Or.inr
      ⟨_, _, _, _, _, rfl, rfl, rfl, rfl, rfl, Or.inl rfl⟩)))))))
  ⟨hfail, (Benchmark_error_on_any_failure (sampleEnv (fun _ => 5000) measuredVerifyFalse)
    sampleMSP [] 3).1 1 (by decide) hfail⟩

/-- Once trial `i` fails after `i` completed trials, the verification loop returns that
error for every larger trial count. -/
theorem verifyLoop_error_of_trial {Key : Type} (env : Env Key) (alg : SignatureAlgorithm)
    (testMessage : Bytes) (i : Nat) (vs : List Int) (e : String)
    (hv : verifyLoop env alg testMessage i = .ok vs)
    (ht : verifyTrial env alg testMessage i = .error e) :
    ∀ n, i < n → verifyLoop env alg testMessage n = .error e := by
  intro n
  induction n with
  | zero => intro h; exact absurd h (Nat.not_lt_zero i)
  | succ n ih =>
    intro h
    rcases Nat.lt_succ_iff_lt_or_eq.mp h with h' | rfl
    · simp only [verifyLoop, ih h']
    · simp only [verifyLoop, hv, ht]

/-- C9: in a verification trial `i < n` that is reached (the key-generation and signing
loops and the verification trials before `i` succeeded, and so did the set-up of trial `i`),
if the first verify call returns true without error and the second verify call on the same
message and signature returns false or an error, `Benchmark` returns the consistency-check
error and no record. -/
theorem Benchmark_consistency_check {Key : Type} (env : Env Key) (msp : EnhancedMSP Key)
    (testMessage : Bytes) (n i : Nat) (hi : i < n)
    (keygenTimes : List Int) (hk : keygenLoop env msp.algorithm n = .ok keygenTimes)
    (signTimes : List Int) (signature : Bytes)
    (hs : signLoop env msp.algorithm testMessage n = .ok (signTimes, signature))
    (verifyTimes : List Int) (hv : verifyLoop env msp.algorithm testMessage i = .ok verifyTimes)
    (verifyMSP signingMSP verifyMSP' : EnhancedMSP Key) (sig publicKeyBytes : Bytes)
    (h1 : env.NewEnhancedMSP (.verifyNewVerifier i) msp.algorithm = .ok verifyMSP)
    (h2 : env.NewEnhancedMSP (.verifyNewSigner i) msp.algorithm = .ok signingMSP)
    (h3 : env.Sign (.verifySign i) signingMSP (uniqueMessage testMessage i (env.unixNano i))
      = .ok sig)
    (h4 : env.GetPublicKeyBytes (.verifyGetPub i) signingMSP = .ok publicKeyBytes)
    (h5 : env.setPublicKeyFromBytes (.verifySetPub i) verifyMSP publicKeyBytes = .ok verifyMSP')
    (hfirst : env.Verify (.verify1 i) verifyMSP'
      (uniqueMessage testMessage i (env.unixNano i)) sig = .ok true)
    (hsecond : env.Verify (.verify2 i) verifyMSP'
        (uniqueMessage testMessage i (env.unixNano i)) sig = .ok false ∨
      ∃ e, env.Verify (.verify2 i) verifyMSP'
        (uniqueMessage testMessage i (env.unixNano i)) sig = .error e) :
    Benchmark env msp testMessage n = .error "verification consistency check failed" := by
  have ht : verifyTrial env msp.algorithm testMessage i
      = .error "verification consistency check failed" := by
    unfold verifyTrial
    rcases hsecond with h7 | ⟨e, h7⟩ <;> simp [h1, h2, h3, h4, h5, hfirst, h7]
  have hl := verifyLoop_error_of_trial env msp.algorithm testMessage i verifyTimes _ hv ht n hi
  unfold Benchmark
  simp [hk, hs, hl]

/-- C9, instance: the second verify call of trial 1 returns false after the first returned
true; a three-trial benchmark returns the consistency-check error. -/
theorem Benchmark_consistency_check_witness :
    (sampleEnv (fun _ => 5000) secondVerifyFalse).Verify (.verify1 1)
      sampleMSP (uniqueMessage [] 1 0) [1, 2, 3] = .ok true ∧
    (sampleEnv (fun _ => 5000) secondVerifyFalse).Verify (.verify2 1)
      sampleMSP (uniqueMessage [] 1 0) [1, 2, 3] = .ok false ∧
    Benchmark (sampleEnv (fun _ => 5000) secondVerifyFalse) sampleMSP [] 3
      = .error "verification consistency check failed" :=
  ⟨rfl, rfl,
   Benchmark_consistency_check (sampleEnv (fun _ => 5000) secondVerifyFalse) sampleMSP [] 3 1
     (by decide) [5000, 5000, 5000] rfl [5000, 5000, 5000] [1, 2, 3] rfl [5000] rfl
     sampleMSP sampleMSP sampleMSP [1, 2, 3] [4, 5] rfl rfl rfl rfl rfl rfl (Or.inl rfl)⟩

/-! ## C10: the per-trial messages -/

theorem UInt8_toNat_ofNat (n : Nat) : (UInt8.ofNat n).toNat = n % 256 := rfl

theorem digitByte_ne_underscore (d : Nat) (h : d < 10) : UInt8.ofNat (48 + d) ≠ 95 := by
  intro h'
  have h1 := congrArg UInt8.toNat h'
  have h95 : (95 : UInt8).toNat = 95 := rfl
  rw [UInt8_toNat_ofNat, h95] at h1
  omega

theorem decimalDigits_no_underscore (n : Nat) : (95 : UInt8) ∉ decimalDigits n := by
  unfold decimalDigits
  split
  · decide
  · intro hmem
    obtain ⟨d, hd, hd'⟩ := List.mem_map.mp hmem
    exact digitByte_ne_underscore d
      (Nat.digits_lt_base (by norm_num) (List.mem_reverse.mp hd)) hd'

theorem formatInt_no_underscore (z : Int) : (95 : UInt8) ∉ formatInt z := by
  unfold formatInt
  split
  · intro h
    rcases List.mem_cons.mp h with h | h
    · exact absurd h (by decide)
    · exact decimalDigits_no_underscore _ h
  · exact decimalDigits_no_underscore _

/-- On decimal digits the byte encoding is read back by `toNat`. -/
theorem map_toNat_digitBytes (l : List Nat) (hl : ∀ d ∈ l, d < 10) :
    (l.map (fun d => UInt8.ofNat (48 + d))).map UInt8.toNat = l.map (fun d => 48 + d) := by
  rw [List.map_map]
  apply List.map_congr_left
  intro d hd
  have := hl d hd
  simp only [Function.comp, UInt8_toNat_ofNat]
  omega

theorem digitBytes_injective (l₁ l₂ : List Nat) (h₁ : ∀ d ∈ l₁, d < 10)
    (h₂ : ∀ d ∈ l₂, d < 10)
    (h : l₁.map (fun d => UInt8.ofNat (48 + d)) = l₂.map (fun d => UInt8.ofNat (48 + d))) :
    l₁ = l₂ := by
  have h' := congrArg (List.map UInt8.toNat) h
  rw [map_toNat_digitBytes l₁ h₁, map_toNat_digitBytes l₂ h₂] at h'
  exact List.map_injective_iff.mpr (fun a b hab => by simpa using hab) h'

theorem decimalDigits_ne_zero_digit (m : Nat) (hm : m ≠ 0) : decimalDigits m ≠ [48] := by
  unfold decimalDigits
  rw [if_neg hm]
  intro h
  have hlt : ∀ d ∈ (Nat.digits 10 m).reverse, d < 10 := fun d hd =>
    Nat.digits_lt_base (by norm_num) (List.mem_reverse.mp hd)
  have h0 : (Nat.digits 10 m).reverse = [0] := by
    apply digitBytes_injective _ [0] hlt (by simp)
    rw [h]; rfl
  have h1 : Nat.digits 10 m = [0] := by
    have := congrArg List.reverse h0
    simpa using this
  have hlast := Nat.getLast_digit_ne_zero 10 hm
  simp [h1] at hlast

theorem decimalDigits_injective (n m : Nat) (h : decimalDigits n = decimalDigits m) : n = m := by
  by_cases hn : n = 0
  · by_cases hm : m = 0
    · rw [hn, hm]
    · exfalso
      apply decimalDigits_ne_zero_digit m hm
      rw [← h, hn]; rfl
  · by_cases hm : m = 0
    · exfalso
      apply decimalDigits_ne_zero_digit n hn
      rw [h, hm]; rfl
    · unfold decimalDigits at h
      rw [if_neg hn, if_neg hm] at h
      have hrev := digitBytes_injective _ _
        (fun d hd => Nat.digits_lt_base (by norm_num) (List.mem_reverse.mp hd))
        (fun d hd => Nat.digits_lt_base (by norm_num) (List.mem_reverse.mp hd)) h
      exact Nat.digits_inj_iff.mp (List.reverse_injective hrev)

theorem formatInt_natCast (i : Nat) : formatInt (i : Int) = decimalDigits i := by
  unfold formatInt
  rw [if_neg (by omega)]
  simp

/-- C10: for every base message and two trial indices `i ≠ j`, the per-trial messages
`base ++ "_<i>_<t_i>"` and `base ++ "_<j>_<t_j>"` are different byte strings whatever the
timestamps `t_i`, `t_j` are, and each has the base message as a prefix. -/
theorem uniqueMessage_distinct (base : Bytes) (i j : Nat) (ti tj : Int) (hij : i ≠ j) :
    uniqueMessage base i ti ≠ uniqueMessage base j tj ∧
    base <+: uniqueMessage base i ti ∧ base <+: uniqueMessage base j tj := by
  refine ⟨?_, List.prefix_append _ _, List.prefix_append _ _⟩
  intro h
  unfold uniqueMessage at h
  have h' := List.append_cancel_left h
  simp only [List.singleton_append, List.cons_append, List.cons.injEq, true_and,
    List.nil_append, List.append_assoc] at h'
  have hsplit := (List.append_cons_inj_of_not_mem (formatInt_no_underscore (i : Int))
    (formatInt_no_underscore ti)).mp h'
  rw [formatInt_natCast, formatInt_natCast] at hsplit
  exact hij (decimalDigits_injective i j hsplit.1)

/-- C10, instance: trials 0 and 1 with the same timestamp 5 sign `"m_0_5"` and `"m_1_5"`. -/
theorem uniqueMessage_distinct_witness :
    uniqueMessage [109] 0 5 = [109, 95, 48, 95, 53] ∧
    uniqueMessage [109] 1 5 = [109, 95, 49, 95, 53] ∧
    uniqueMessage [109] 0 5 ≠ uniqueMessage [109] 1 5 :=
  ⟨by simp [uniqueMessage, formatInt, decimalDigits],
   by simp [uniqueMessage, formatInt, decimalDigits],
   (uniqueMessage_distinct [109] 0 1 5 5 (by decide)).1⟩

/-! ## C16: a benchmark of zero iterations -/

theorem durationMs_zero : durationMs 0 = Float64.fin 0 := by
  simp [durationMs, Float64.ofInt, Float64.ofRat, Float64.div]

/-- C16: `Benchmark` accepts an iteration count of 0: when the two key exports of the
receiver succeed it returns a record without error whose keygen, sign and verify times are 0
(`calculateAverageDuration` of the empty sequence is 0, nothing is divided), whose signature
length is 0 and whose public- and private-key lengths are those of the receiver's keys. -/
theorem Benchmark_zero_iterations {Key : Type} (env : Env Key) (msp : EnhancedMSP Key)
    (testMessage publicKeyBytes privateKeyBytes : Bytes)
    (hpub : env.GetPublicKeyBytes .sizePub msp = .ok publicKeyBytes)
    (hpriv : env.GetPrivateKeyBytes .sizePriv msp = .ok privateKeyBytes) :
    calculateAverageDuration [] = 0 ∧
    Benchmark env msp testMessage 0 =
      .ok { Algorithm := msp.algorithm.String,
            KeygenTimeMs := Float64.fin 0,
            SignTimeMs := Float64.fin 0,
            VerifyTimeMs := Float64.fin 0,
            PublicKeyBytes := publicKeyBytes.length,
            PrivateKeyBytes := privateKeyBytes.length,
            SignatureBytes := 0,
            Timestamp := env.timestamp } := by
  refine ⟨rfl, ?_⟩
  have h0 : calculateAverageDuration [] = 0 := rfl
  simp only [Benchmark, keygenLoop, signLoop, verifyLoop, hpub, hpriv, h0, durationMs_zero,
    List.length_nil, Nat.cast_zero]

/-- C16, instance: the sample environment with zero iterations. -/
theorem Benchmark_zero_iterations_witness :
    Benchmark (sampleEnv (fun _ => 5000) (fun _ => .ok true)) sampleMSP [7] 0 =
      .ok { Algorithm := "ECDSA", KeygenTimeMs := Float64.fin 0, SignTimeMs := Float64.fin 0,
            VerifyTimeMs := Float64.fin 0, PublicKeyBytes := 2, PrivateKeyBytes := 1,
            SignatureBytes := 0, Timestamp := "" } :=
  (Benchmark_zero_iterations (sampleEnv (fun _ => 5000) (fun _ => .ok true)) sampleMSP [7]
    [4, 5] [6] rfl rfl).2

/-! ## More on the float64 model: rounding in the normal range -/

namespace Float64

theorem ilog2_bracket (a b : ℕ) (ha0 : a ≠ 0) (hb0 : b ≠ 0) :
    (2 : ℚ) ^ (((Nat.log 2 a : ℕ) : ℤ) - ((Nat.log 2 b : ℕ) : ℤ) - 1) < (a : ℚ) / (b : ℚ) ∧
    (a : ℚ) / (b : ℚ) < (2 : ℚ) ^ (((Nat.log 2 a : ℕ) : ℤ) - ((Nat.log 2 b : ℕ) : ℤ) + 1) := by
  have hla := Nat.pow_log_le_self 2 ha0
  have hla' := Nat.lt_pow_succ_log_self (by norm_num : 1 < 2) a
  have hlb := Nat.pow_log_le_self 2 hb0
  have hlb' := Nat.lt_pow_succ_log_self (by norm_num : 1 < 2) b
  have hbpos : (0 : ℚ) < (b : ℚ) := by exact_mod_cast Nat.pos_of_ne_zero hb0
  have h2 : (2 : ℚ) ≠ 0 := by norm_num
  have hA : ((2 : ℚ) ^ (Nat.log 2 a)) ≤ (a : ℚ) := by exact_mod_cast hla
  have hA' : (a : ℚ) < (2 : ℚ) ^ (Nat.log 2 a + 1) := by exact_mod_cast hla'
  have hB : ((2 : ℚ) ^ (Nat.log 2 b)) ≤ (b : ℚ) := by exact_mod_cast hlb
  have hB' : (b : ℚ) < (2 : ℚ) ^ (Nat.log 2 b + 1) := by exact_mod_cast hlb'
  have hpowA : (0 : ℚ) < (2 : ℚ) ^ (Nat.log 2 a) := by positivity
  have hpowB : (0 : ℚ) < (2 : ℚ) ^ (Nat.log 2 b) := by positivity
  constructor
  · rw [show ((Nat.log 2 a : ℕ) : ℤ) - ((Nat.log 2 b : ℕ) : ℤ) - 1
        = ((Nat.log 2 a : ℕ) : ℤ) - ((Nat.log 2 b + 1 : ℕ) : ℤ) by push_cast; ring]
    rw [zpow_sub₀ h2, zpow_natCast, zpow_natCast]
    calc (2 : ℚ) ^ (Nat.log 2 a) / (2 : ℚ) ^ (Nat.log 2 b + 1)
        < (2 : ℚ) ^ (Nat.log 2 a) / (b : ℚ) :=
          div_lt_div_of_pos_left hpowA hbpos hB'
      _ ≤ (a : ℚ) / (b : ℚ) := div_le_div_of_nonneg_right hA hbpos.le
  · rw [show ((Nat.log 2 a : ℕ) : ℤ) - ((Nat.log 2 b : ℕ) : ℤ) + 1
        = ((Nat.log 2 a + 1 : ℕ) : ℤ) - ((Nat.log 2 b : ℕ) : ℤ) by push_cast; ring]
    rw [zpow_sub₀ h2, zpow_natCast, zpow_natCast]
    calc (a : ℚ) / (b : ℚ) ≤ (a : ℚ) / (2 : ℚ) ^ (Nat.log 2 b) :=
          div_le_div_of_nonneg_left (by positivity) hpowB hB
      _ < (2 : ℚ) ^ (Nat.log 2 a + 1) / (2 : ℚ) ^ (Nat.log 2 b) :=
          div_lt_div_of_pos_right hA' hpowB

/-- The binary exponent brackets a positive rational. -/
theorem ilog2_spec (q : ℚ) (hq : 0 < q) :
    (2 : ℚ) ^ ilog2 q ≤ q ∧ q < (2 : ℚ) ^ (ilog2 q + 1) := by
  have hnum : 0 < q.num := Rat.num_pos.mpr hq
  have ha0 : q.num.natAbs ≠ 0 := by omega
  have hcast : ((q.num.natAbs : ℕ) : ℚ) = (q.num : ℚ) := by
    have h1 : ((q.num.natAbs : ℕ) : ℤ) = q.num := by omega
    have h2 := congrArg (Int.cast : ℤ → ℚ) h1
    rwa [Int.cast_natCast] at h2
  have hqab : (q.num.natAbs : ℚ) / (q.den : ℚ) = q := by
    rw [hcast]; exact Rat.num_div_den q
  obtain ⟨hlow, hup⟩ := ilog2_bracket q.num.natAbs q.den ha0 q.den_nz
  rw [hqab] at hlow hup
  unfold ilog2
  simp only
  split
  · rename_i h; exact ⟨h, hup⟩
  · rename_i h
    refine ⟨hlow.le, ?_⟩
    rw [sub_add_cancel]
    exact not_le.mp h

theorem floor_le_roundHalfEven (x : ℚ) : Int.floor x ≤ roundHalfEven x := by
  unfold roundHalfEven
  simp only
  split
  · exact le_refl _
  · split
    · omega
    · split <;> omega

theorem roundHalfEven_le_floor_add_one (x : ℚ) : roundHalfEven x ≤ Int.floor x + 1 := by
  unfold roundHalfEven
  simp only
  split
  · omega
  · split
    · omega
    · split <;> omega

/-- A value more than `N - 1/2` rounds to at least `N`. -/
theorem le_roundHalfEven_of_lt (x : ℚ) (N : Int) (h : (N : ℚ) - 1 / 2 < x) :
    N ≤ roundHalfEven x := by
  by_cases hf : N ≤ Int.floor x
  · exact le_trans hf (floor_le_roundHalfEven x)
  · have hf' : Int.floor x ≤ N - 1 := by omega
    have hfl : Int.floor x = N - 1 := by
      apply le_antisymm hf'
      apply Int.le_floor.mpr
      push_cast
      linarith
    unfold roundHalfEven
    simp only [hfl]
    have hr : ¬ (x - ((N - 1 : Int) : ℚ) < 1 / 2) := by
      push_cast; linarith
    have hr' : 1 / 2 < x - ((N - 1 : Int) : ℚ) := by
      push_cast; linarith
    rw [if_neg hr, if_pos hr']
    omega

/-- Rounding of a positive value in the normal range: the result is finite, it is the
rounded significand scaled back, and it stays in the closed binade of the value. -/
theorem ofRat_normal (q : ℚ) (hq : 0 < q) (hlo : -1022 ≤ ilog2 q) (hhi : ilog2 q < 1023) :
    ofRat q = fin ((roundHalfEven (q / (2 : ℚ) ^ (ilog2 q - 52)) : ℚ)
        * (2 : ℚ) ^ (ilog2 q - 52)) ∧
    (2 : ℚ) ^ ilog2 q ≤ (roundHalfEven (q / (2 : ℚ) ^ (ilog2 q - 52)) : ℚ)
        * (2 : ℚ) ^ (ilog2 q - 52) ∧
    (roundHalfEven (q / (2 : ℚ) ^ (ilog2 q - 52)) : ℚ) * (2 : ℚ) ^ (ilog2 q - 52)
        ≤ (2 : ℚ) ^ (ilog2 q + 1) := by
  obtain ⟨hk, hk'⟩ := ilog2_spec q hq
  have h2 : (2 : ℚ) ≠ 0 := by norm_num
  have hepos : (0 : ℚ) < (2 : ℚ) ^ (ilog2 q - 52) := by positivity
  have hsplit : (2 : ℚ) ^ ilog2 q = (2 : ℚ) ^ (52 : ℕ) * (2 : ℚ) ^ (ilog2 q - 52) := by
    rw [← zpow_natCast, ← zpow_add₀ h2]; congr 1; push_cast; ring
  have hsplit' : (2 : ℚ) ^ (ilog2 q + 1) = (2 : ℚ) ^ (53 : ℕ) * (2 : ℚ) ^ (ilog2 q - 52) := by
    rw [← zpow_natCast, ← zpow_add₀ h2]; congr 1; push_cast; ring
  have hx : (2 : ℚ) ^ (52 : ℕ) ≤ q / (2 : ℚ) ^ (ilog2 q - 52) := by
    rw [le_div_iff₀ hepos, ← hsplit]; exact hk
  have hx' : q / (2 : ℚ) ^ (ilog2 q - 52) < (2 : ℚ) ^ (53 : ℕ) := by
    rw [div_lt_iff₀ hepos, ← hsplit']; exact hk'
  have hfl : (2 : Int) ^ (52 : ℕ) ≤ Int.floor (q / (2 : ℚ) ^ (ilog2 q - 52)) := by
    apply Int.le_floor.mpr; push_cast; exact hx
  have hfl' : Int.floor (q / (2 : ℚ) ^ (ilog2 q - 52)) < (2 : Int) ^ (53 : ℕ) := by
    apply Int.floor_lt.mpr; push_cast; exact hx'
  have hm := floor_le_roundHalfEven (q / (2 : ℚ) ^ (ilog2 q - 52))
  have hm' := roundHalfEven_le_floor_add_one (q / (2 : ℚ) ^ (ilog2 q - 52))
  have hmlo : ((2 : ℚ) ^ (52 : ℕ)) ≤ (roundHalfEven (q / (2 : ℚ) ^ (ilog2 q - 52)) : ℚ) := by
    have : (2 : Int) ^ (52 : ℕ) ≤ roundHalfEven (q / (2 : ℚ) ^ (ilog2 q - 52)) := by omega
    exact_mod_cast this
  have hmhi : (roundHalfEven (q / (2 : ℚ) ^ (ilog2 q - 52)) : ℚ) ≤ (2 : ℚ) ^ (53 : ℕ) := by
    have : roundHalfEven (q / (2 : ℚ) ^ (ilog2 q - 52)) ≤ (2 : Int) ^ (53 : ℕ) := by omega
    exact_mod_cast this
  have hvlo : (2 : ℚ) ^ ilog2 q ≤ (roundHalfEven (q / (2 : ℚ) ^ (ilog2 q - 52)) : ℚ)
        * (2 : ℚ) ^ (ilog2 q - 52) := by
    rw [hsplit]; exact mul_le_mul_of_nonneg_right hmlo hepos.le
  have hvhi : (roundHalfEven (q / (2 : ℚ) ^ (ilog2 q - 52)) : ℚ) * (2 : ℚ) ^ (ilog2 q - 52)
        ≤ (2 : ℚ) ^ (ilog2 q + 1) := by
    rw [hsplit']; exact mul_le_mul_of_nonneg_right hmhi hepos.le
  refine ⟨?_, hvlo, hvhi⟩
  have hmax : max (ilog2 q - 52) (-1074) = ilog2 q - 52 := max_eq_left (by omega)
  have hlt1024 : ¬ ((2 : ℚ) ^ (1024 : Int) ≤
      (roundHalfEven (q / (2 : ℚ) ^ (ilog2 q - 52)) : ℚ) * (2 : ℚ) ^ (ilog2 q - 52)) := by
    have : (2 : ℚ) ^ (ilog2 q + 1) < (2 : ℚ) ^ (1024 : Int) :=
      zpow_lt_zpow_right₀ (by norm_num) (by omega)
    intro h; linarith
  unfold ofRat
  simp only [hq.ne', if_false, abs_of_pos hq, hmax, hlt1024, not_lt.mpr hq.le]

theorem le_ilog2 (q : ℚ) (hq : 0 < q) (a : Int) (h : (2 : ℚ) ^ a ≤ q) : a ≤ ilog2 q := by
  by_contra hcon
  have hlt : ilog2 q + 1 ≤ a := by omega
  have h1 : (2 : ℚ) ^ (ilog2 q + 1) ≤ (2 : ℚ) ^ a := zpow_le_zpow_right₀ (by norm_num) hlt
  have := (ilog2_spec q hq).2
  linarith

theorem ilog2_lt (q : ℚ) (hq : 0 < q) (b : Int) (h : q < (2 : ℚ) ^ b) : ilog2 q < b := by
  by_contra hcon
  have hle : b ≤ ilog2 q := by omega
  have h1 : (2 : ℚ) ^ b ≤ (2 : ℚ) ^ ilog2 q := zpow_le_zpow_right₀ (by norm_num) hle
  have := (ilog2_spec q hq).1
  linarith

/-- The conversion `float64(d)` of a duration of at least 1000 ns is a finite value of at
least 1000 and at most `2^63`. -/
theorem ofInt_bounds (d : Int) (h1 : 1000 ≤ d) (h2 : d < 2 ^ 63) :
    ∃ x : ℚ, ofInt d = fin x ∧ 1000 ≤ x ∧ x ≤ 2 ^ 63 := by
  by_cases hsmall : d ≤ 2 ^ 53
  · refine ⟨(d : ℚ), ofInt_exact d (by rw [abs_of_nonneg (by omega)]; exact hsmall), ?_, ?_⟩
    · exact_mod_cast h1
    · have : d ≤ 2 ^ 63 := by omega
      exact_mod_cast this
  · have hd53 : (2 : Int) ^ 53 ≤ d := by omega
    have hq : (0 : ℚ) < (d : ℚ) := by
      have : (0 : Int) < d := by omega
      exact_mod_cast this
    have hlo : (53 : Int) ≤ ilog2 (d : ℚ) := by
      apply le_ilog2 _ hq
      have h53 : ((2 : Int) ^ 53 : ℚ) ≤ (d : ℚ) := by exact_mod_cast hd53
      have he : (2 : ℚ) ^ (53 : Int) = ((2 : Int) ^ 53 : ℚ) := by norm_num
      rw [he]; exact h53
    have hhi : ilog2 (d : ℚ) < 63 := by
      apply ilog2_lt _ hq
      have h63 : (d : ℚ) < ((2 : Int) ^ 63 : ℚ) := by exact_mod_cast h2
      have he : (2 : ℚ) ^ (63 : Int) = ((2 : Int) ^ 63 : ℚ) := by norm_num
      rw [he]; exact h63
    obtain ⟨hv, hvlo, hvhi⟩ := ofRat_normal (d : ℚ) hq (by omega) (by omega)
    refine ⟨_, hv, ?_, ?_⟩
    · have : (2 : ℚ) ^ (53 : Int) ≤ (2 : ℚ) ^ ilog2 (d : ℚ) :=
        zpow_le_zpow_right₀ (by norm_num) hlo
      have h53 : (1000 : ℚ) ≤ (2 : ℚ) ^ (53 : Int) := by norm_num
      linarith
    · have : (2 : ℚ) ^ (ilog2 (d : ℚ) + 1) ≤ (2 : ℚ) ^ (63 : Int) :=
        zpow_le_zpow_right₀ (by norm_num) (by omega)
      have h63 : (2 : ℚ) ^ (63 : Int) = 2 ^ 63 := by norm_num
      linarith

/-- Division by `1e6` of a float64 value between 1000 and `2^63` gives a finite value of at
least `1/1000`. -/
theorem div_million_bounds (x : ℚ) (h1 : 1000 ≤ x) (h2 : x ≤ 2 ^ 63) :
    ∃ v : ℚ, div (fin x) (fin 1000000) = fin v ∧ 1 / 1000 ≤ v := by
  have hq : (0 : ℚ) < x / 1000000 := by positivity
  have hqlo : (1 : ℚ) / 1000 ≤ x / 1000000 := by
    rw [le_div_iff₀ (by norm_num)]; linarith
  have hqhi : x / 1000000 < (2 : ℚ) ^ (44 : Int) := by
    rw [div_lt_iff₀ (by norm_num)]
    have : (2 : ℚ) ^ (44 : Int) * 1000000 > 2 ^ 63 := by norm_num
    linarith
  have hklo : (-10 : Int) ≤ ilog2 (x / 1000000) := by
    apply le_ilog2 _ hq
    have : (2 : ℚ) ^ (-10 : Int) ≤ 1 / 1000 := by norm_num
    linarith
  have hkhi : ilog2 (x / 1000000) < 44 := ilog2_lt _ hq _ hqhi
  obtain ⟨hv, hvlo, -⟩ := ofRat_normal (x / 1000000) hq (by omega) (by omega)
  have hdiv : div (fin x) (fin 1000000) = ofRat (x / 1000000) := by
    simp [div]
  refine ⟨_, hdiv.trans hv, ?_⟩
  by_cases hk : (-9 : Int) ≤ ilog2 (x / 1000000)
  · have : (2 : ℚ) ^ (-9 : Int) ≤ (2 : ℚ) ^ ilog2 (x / 1000000) :=
      zpow_le_zpow_right₀ (by norm_num) hk
    have h9 : (1 : ℚ) / 1000 ≤ (2 : ℚ) ^ (-9 : Int) := by norm_num
    linarith
  · have hk10 : ilog2 (x / 1000000) = -10 := by omega
    rw [hk10]
    have he : ((-10 : Int) - 52) = -62 := by norm_num
    rw [he]
    have hN : (4611686018427388 : Int) ≤ roundHalfEven (x / 1000000 / (2 : ℚ) ^ (-62 : Int)) := by
      apply le_roundHalfEven_of_lt
      have h62 : (x / 1000000) / (2 : ℚ) ^ (-62 : Int) = x / 1000000 * 2 ^ 62 := by
        rw [zpow_neg, div_inv_eq_mul]; norm_num
      rw [h62]
      have : (1 : ℚ) / 1000 * 2 ^ 62 ≤ x / 1000000 * 2 ^ 62 :=
        mul_le_mul_of_nonneg_right hqlo (by positivity)
      have hc : ((4611686018427388 : Int) : ℚ) - 1 / 2 < (1 : ℚ) / 1000 * 2 ^ 62 := by
        norm_num
      linarith
    have hNq : ((4611686018427388 : Int) : ℚ)
        ≤ (roundHalfEven (x / 1000000 / (2 : ℚ) ^ (-62 : Int)) : ℚ) := by
      exact_mod_cast hN
    have hpos : (0 : ℚ) < (2 : ℚ) ^ (-62 : Int) := by positivity
    have hfin : (1 : ℚ) / 1000 ≤ ((4611686018427388 : Int) : ℚ) * (2 : ℚ) ^ (-62 : Int) := by
      norm_num
    have := mul_le_mul_of_nonneg_right hNq hpos.le
    linarith

/-- Rounding a negative value never gives a positive one. -/
theorem ofRat_neg_not_pos (q : ℚ) (hq : q < 0) : lt (fin 0) (ofRat q) = false := by
  have hm : (0 : ℚ) ≤ (roundHalfEven (|q| / (2 : ℚ) ^ (max (ilog2 |q| - 52) (-1074))) : ℚ) := by
    have h0 : (0 : Int) ≤ Int.floor (|q| / (2 : ℚ) ^ (max (ilog2 |q| - 52) (-1074))) := by
      apply Int.le_floor.mpr
      push_cast
      positivity
    have := floor_le_roundHalfEven (|q| / (2 : ℚ) ^ (max (ilog2 |q| - 52) (-1074)))
    exact_mod_cast le_trans h0 this
  have hv : (0 : ℚ) ≤ (roundHalfEven (|q| / (2 : ℚ) ^ (max (ilog2 |q| - 52) (-1074))) : ℚ)
      * (2 : ℚ) ^ (max (ilog2 |q| - 52) (-1074)) := mul_nonneg hm (by positivity)
  unfold ofRat
  simp only [hq.ne, if_false, hq, if_true, decide_True]
  split
  · rfl
  · simp only [lt, decide_eq_false_iff_not, not_lt]
    linarith

end Float64

/-! ## C11: positive mean times -/

theorem sum_ge_of_all_ge (ts : List Int) (h : ∀ t ∈ ts, 1000 ≤ t) :
    1000 * (ts.length : Int) ≤ ts.sum := by
  induction ts with
  | nil => simp
  | cons t ts ih =>
    have h1 := h t (by simp)
    have h2 := ih (fun x hx => h x (by simp [hx]))
    simp only [List.length_cons, List.sum_cons]
    push_cast
    omega

/-- The millisecond value of the mean of a non-empty array of timings of at least 1000 ns
whose sum does not wrap is finite and at least `1/1000`. -/
theorem mean_ms_bounds (ts : List Int) (hne : ts ≠ []) (hall : ∀ t ∈ ts, 1000 ≤ t)
    (hsum : ts.sum < 2 ^ 63) :
    ∃ v : ℚ, durationMs (calculateAverageDuration ts) = Float64.fin v ∧ 1 / 1000 ≤ v := by
  have hlen : 0 < ts.length := List.length_pos.mpr hne
  have hlenZ : (0 : Int) < (ts.length : Int) := by exact_mod_cast hlen
  have hge := sum_ge_of_all_ge ts hall
  have hnonneg : (0 : Int) ≤ ts.sum := by nlinarith
  have havg : calculateAverageDuration ts = ts.sum / (ts.length : Int) := by
    rw [calculateAverageDuration_eq ts hne, wrapInt64_of_fits _ ⟨by omega, hsum⟩,
      Int.tdiv_eq_ediv hnonneg hlenZ.le]
  have h1 : 1000 ≤ calculateAverageDuration ts := by
    rw [havg]; exact Int.le_ediv_of_mul_le hlenZ hge
  have h2 : calculateAverageDuration ts < 2 ^ 63 := by
    rw [havg]; exact lt_of_le_of_lt (Int.ediv_le_self _ hnonneg) hsum
  obtain ⟨x, hx, hx1, hx2⟩ := Float64.ofInt_bounds _ h1 h2
  obtain ⟨v, hv, hv1⟩ := Float64.div_million_bounds x hx1 hx2
  exact ⟨v, by unfold durationMs; rw [hx]; exact hv, hv1⟩

/-- The means of a record are at least 0.001 ms when the three timing sums do not wrap. -/
theorem Benchmark_means_positive_of_sums_fit {Key : Type} (env : Env Key)
    (msp : EnhancedMSP Key) (testMessage : Bytes) (n : Nat) (hn : 1 ≤ n)
    (hfit : TimingSumsFit env msp.algorithm testMessage n)
    (r : CryptoMetrics) (hr : Benchmark env msp testMessage n = .ok r) :
    (∃ v : ℚ, r.KeygenTimeMs = Float64.fin v ∧ 1 / 1000 ≤ v) ∧
    (∃ v : ℚ, r.SignTimeMs = Float64.fin v ∧ 1 / 1000 ≤ v) ∧
    (∃ v : ℚ, r.VerifyTimeMs = Float64.fin v ∧ 1 / 1000 ≤ v) ∧
    Float64.lt (Float64.fin 0) r.KeygenTimeMs = true ∧
    Float64.lt (Float64.fin 0) r.SignTimeMs = true ∧
    Float64.lt (Float64.fin 0) r.VerifyTimeMs = true := by
  obtain ⟨ks, ss, sig, vs, pub, priv, hk, hs, hv, -, -, hrec⟩ :=
    (Benchmark_ok_iff env msp testMessage n r).mp hr
  obtain ⟨fk, fs, fv⟩ := hfit
  obtain ⟨ck, cs, cv⟩ := stored_timings_floor env msp.algorithm testMessage n
  have hne : ∀ ts : List Int, ts.length = n → ts ≠ [] := by
    intro ts hl h0; rw [h0] at hl; simp at hl; omega
  obtain ⟨vk, hvk, hvk1⟩ := mean_ms_bounds ks (hne ks (ck ks hk).1) (ck ks hk).2 (fk ks hk)
  obtain ⟨vs', hvs, hvs1⟩ :=
    mean_ms_bounds ss (hne ss (cs ss sig hs).1) (cs ss sig hs).2 (fs ss sig hs)
  obtain ⟨vv, hvv, hvv1⟩ := mean_ms_bounds vs (hne vs (cv vs hv).1) (cv vs hv).2 (fv vs hv)
  have hK : r.KeygenTimeMs = Float64.fin vk := by rw [hrec]; exact hvk
  have hS : r.SignTimeMs = Float64.fin vs' := by rw [hrec]; exact hvs
  have hV : r.VerifyTimeMs = Float64.fin vv := by rw [hrec]; exact hvv
  refine ⟨⟨vk, hK, hvk1⟩, ⟨vs', hS, hvs1⟩, ⟨vv, hV, hvv1⟩, ?_, ?_, ?_⟩
  · rw [hK]; simp only [Float64.lt, decide_eq_true_eq]; linarith
  · rw [hS]; simp only [Float64.lt, decide_eq_true_eq]; linarith
  · rw [hV]; simp only [Float64.lt, decide_eq_true_eq]; linarith

theorem floorMicrosecond_le (t : Int) (h : 0 ≤ t) : floorMicrosecond t ≤ t + 1000 := by
  unfold floorMicrosecond; split <;> omega

theorem measuredTotal_nonneg {Key : Type} (env : Env Key) (h : ∀ site, 0 ≤ env.elapsed site) :
    ∀ n, 0 ≤ measuredTotal env n := by
  intro n
  induction n with
  | zero => simp [measuredTotal]
  | succ n ih =>
    have h1 := h (.keygen n)
    have h2 := h (.sign n)
    have h3 := h (.verify1 n)
    have h4 := h (.verify2 n)
    simp only [measuredTotal]
    omega

theorem keygenLoop_sum_le {Key : Type} (env : Env Key) (alg : SignatureAlgorithm)
    (h : ∀ site, 0 ≤ env.elapsed site) :
    ∀ (n : Nat) (ts : List Int), keygenLoop env alg n = .ok ts →
      ts.sum ≤ measuredTotal env n + 1000 * (n : Int) := by
  intro n
  induction n with
  | zero =>
    intro ts hl
    simp only [keygenLoop, Except.ok.injEq] at hl
    subst hl; simp [measuredTotal]
  | succ n ih =>
    intro ts hl
    simp only [keygenLoop] at hl
    cases hl0 : keygenLoop env alg n with
    | error e => simp [hl0] at hl
    | ok ts0 =>
      cases ht : keygenTrial env alg n with
      | error e => simp [hl0, ht] at hl
      | ok t =>
        simp only [hl0, ht, Except.ok.injEq] at hl
        subst hl
        have h0 := ih ts0 hl0
        rw [keygenTrial_ok_iff] at ht
        have ht' := floorMicrosecond_le _ (h (.keygen n))
        have h2 := h (.sign n)
        have h3 := h (.verify1 n)
        have h4 := h (.verify2 n)
        simp only [List.sum_append, List.sum_cons, List.sum_nil, measuredTotal]
        push_cast
        rw [ht.2]
        omega

theorem signLoop_sum_le {Key : Type} (env : Env Key) (alg : SignatureAlgorithm)
    (testMessage : Bytes) (h : ∀ site, 0 ≤ env.elapsed site) :
    ∀ (n : Nat) (ts : List Int) (sig : Bytes), signLoop env alg testMessage n = .ok (ts, sig) →
      ts.sum ≤ measuredTotal env n + 1000 * (n : Int) := by
  intro n
  induction n with
  | zero =>
    intro ts sig hl
    simp only [signLoop, Except.ok.injEq, Prod.mk.injEq] at hl
    obtain ⟨hl, -⟩ := hl
    subst hl; simp [measuredTotal]
  | succ n ih =>
    intro ts sig hl
    simp only [signLoop] at hl
    cases hl0 : signLoop env alg testMessage n with
    | error e => simp [hl0] at hl
    | ok p0 =>
      obtain ⟨ts0, sig0⟩ := p0
      cases ht : signTrial env alg testMessage n with
      | error e => simp [hl0, ht] at hl
      | ok p =>
        obtain ⟨t, s⟩ := p
        simp only [hl0, ht, Except.ok.injEq, Prod.mk.injEq] at hl
        obtain ⟨hl, -⟩ := hl
        subst hl
        have h0 := ih ts0 sig0 hl0
        rw [signTrial_ok_iff] at ht
        have ht' := floorMicrosecond_le _ (h (.sign n))
        have h1 := h (.keygen n)
        have h3 := h (.verify1 n)
        have h4 := h (.verify2 n)
        simp only [List.sum_append, List.sum_cons, List.sum_nil, measuredTotal]
        push_cast
        rw [ht.2]
        omega

theorem verifyLoop_sum_le {Key : Type} (env : Env Key) (alg : SignatureAlgorithm)
    (testMessage : Bytes) (h : ∀ site, 0 ≤ env.elapsed site) :
    ∀ (n : Nat) (ts : List Int), verifyLoop env alg testMessage n = .ok ts →
      ts.sum ≤ measuredTotal env n + 1000 * (n : Int) := by
  intro n
  induction n with
  | zero =>
    intro ts hl
    simp only [verifyLoop, Except.ok.injEq] at hl
    subst hl; simp [measuredTotal]
  | succ n ih =>
    intro ts hl
    simp only [verifyLoop] at hl
    cases hl0 : verifyLoop env alg testMessage n with
    | error e => simp [hl0] at hl
    | ok ts0 =>
      cases ht : verifyTrial env alg testMessage n with
      | error e => simp [hl0, ht] at hl
      | ok t =>
        simp only [hl0, ht, Except.ok.injEq] at hl
        subst hl
        have h0 := ih ts0 hl0
        rw [verifyTrial_ok_iff] at ht
        have ht' := floorMicrosecond_le _ (h (.verify1 n))
        have h1 := h (.keygen n)
        have h2 := h (.sign n)
        have h3 := h (.verify1 n)
        have h4 := h (.verify2 n)
        have hmax : max (floorMicrosecond (env.elapsed (.verify1 n))) (env.elapsed (.verify2 n))
            ≤ env.elapsed (.verify1 n) + env.elapsed (.verify2 n) + 1000 := by
          apply max_le <;> omega
        simp only [List.sum_append, List.sum_cons, List.sum_nil, measuredTotal]
        push_cast
        rw [ht.2]
        omega

/-- On a real clock the three timing sums do not wrap. -/
theorem timingSumsFit_of_realizable {Key : Type} (env : Env Key) (alg : SignatureAlgorithm)
    (testMessage : Bytes) (n : Nat) (hreal : env.Realizable n) :
    TimingSumsFit env alg testMessage n := by
  obtain ⟨hnn, hlt⟩ := hreal
  refine ⟨?_, ?_, ?_⟩
  · intro ts h
    exact lt_of_le_of_lt (keygenLoop_sum_le env alg hnn n ts h) hlt
  · intro ts sig h
    exact lt_of_le_of_lt (signLoop_sum_le env alg testMessage hnn n ts sig h) hlt
  · intro ts h
    exact lt_of_le_of_lt (verifyLoop_sum_le env alg testMessage hnn n ts h) hlt

/-- C11: for every iteration count of at least 1 and every run on a real clock, whenever
`Benchmark` returns a record its keygen, sign and verify mean times are finite and at least
0.001 ms, hence strictly positive: the truncated mean of timings that are each at least
1000 ns is at least 1000 ns, and `float64(avg) / 1e6` of such a mean is at least `1/1000`. -/
theorem Benchmark_means_positive {Key : Type} (env : Env Key) (msp : EnhancedMSP Key)
    (testMessage : Bytes) (n : Nat) (hn : 1 ≤ n) (hreal : env.Realizable n)
    (r : CryptoMetrics) (hr : Benchmark env msp testMessage n = .ok r) :
    (∃ v : ℚ, r.KeygenTimeMs = Float64.fin v ∧ 1 / 1000 ≤ v) ∧
    (∃ v : ℚ, r.SignTimeMs = Float64.fin v ∧ 1 / 1000 ≤ v) ∧
    (∃ v : ℚ, r.VerifyTimeMs = Float64.fin v ∧ 1 / 1000 ≤ v) ∧
    Float64.lt (Float64.fin 0) r.KeygenTimeMs = true ∧
    Float64.lt (Float64.fin 0) r.SignTimeMs = true ∧
    Float64.lt (Float64.fin 0) r.VerifyTimeMs = true :=
  Benchmark_means_positive_of_sums_fit env msp testMessage n hn
    (timingSumsFit_of_realizable env msp.algorithm testMessage n hreal) r hr

theorem sampleEnv_realizable :
    (sampleEnv (fun _ => 0) (fun _ => .ok true)).Realizable 2 :=
  ⟨fun _ => le_refl _, by decide⟩

/-- C11, instance: two trials in which every measured duration is zero give a record whose
three mean times are positive. -/
theorem Benchmark_means_positive_witness :
    ∃ r, Benchmark (sampleEnv (fun _ => 0) (fun _ => .ok true)) sampleMSP [] 2 = .ok r ∧
      Float64.lt (Float64.fin 0) r.KeygenTimeMs = true ∧
      Float64.lt (Float64.fin 0) r.SignTimeMs = true ∧
      Float64.lt (Float64.fin 0) r.VerifyTimeMs = true :=
  ⟨_, rfl, (Benchmark_means_positive (sampleEnv (fun _ => 0) (fun _ => .ok true)) sampleMSP
    [] 2 (by decide) sampleEnv_realizable _ rfl).2.2.2⟩

/-! ## C13: validation fails on a bad message -/

theorem validateMessages_fails {Key : Type} (env : ValidationEnv Key) (a : Nat)
    (algorithm : SignatureAlgorithm) (mspInstance : EnhancedMSP Key) :
    ∀ (msgs : List Bytes) (i j : Nat) (testMessage : Bytes),
      msgs[j]? = some testMessage →
      MessageCheckFails env a mspInstance (i + j) testMessage →
      validateMessages env a algorithm mspInstance i msgs ≠ none := by
  intro msgs
  induction msgs with
  | nil => intro i j m hj; simp at hj
  | cons m0 rest ih =>
    intro i j m hj hbad
    cases hs : env.Sign (.sign a i) mspInstance m0 with
    | error e => simp [validateMessages, hs]
    | ok sig =>
      cases hv : env.Verify (.verify a i) mspInstance m0 sig with
      | error e => simp [validateMessages, hs, hv]
      | ok valid =>
        cases valid with
        | false => simp [validateMessages, hs, hv]
        | true =>
          by_cases hlen : sig.length = 0
          · simp [validateMessages, hs, hv, hlen]
          · cases j with
            | zero =>
              exfalso
              simp only [List.getElem?_cons_zero, Option.some.injEq] at hj
              subst hj
              simp only [Nat.add_zero] at hbad
              rcases hbad with ⟨e, he⟩ | ⟨s, hs', hb⟩
              · rw [hs] at he; cases he
              · rw [hs] at hs'; cases hs'
                rcases hb with hb | hb | ⟨e, hb⟩
                · subst hb; exact hlen rfl
                · rw [hv] at hb; cases hb
                · rw [hv] at hb; cases hb
            | succ j =>
              simp only [List.getElem?_cons_succ] at hj
              have hbad' : MessageCheckFails env a mspInstance (i + 1 + j) m := by
                have : i + 1 + j = i + (j + 1) := by omega
                rw [this]; exact hbad
              have := ih (i + 1) j m hj hbad'
              simpa [validateMessages, hs, hv, hlen] using this

theorem validateFrom_fails {Key : Type} (env : ValidationEnv Key) :
    ∀ (algorithms : List SignatureAlgorithm) (a0 k : Nat) (algorithm : SignatureAlgorithm)
      (e : String),
      algorithms[k]? = some algorithm →
      validateAlgorithm env (a0 + k) algorithm = some e →
      ∃ e', validateFrom env a0 algorithms = some e' := by
  intro algorithms
  induction algorithms with
  | nil => intro a0 k alg e hk; simp at hk
  | cons alg0 rest ih =>
    intro a0 k alg e hk hfail
    unfold validateFrom
    cases h0 : validateAlgorithm env a0 alg0 with
    | some e0 => exact ⟨e0, rfl⟩
    | none =>
      cases k with
      | zero =>
        simp only [List.getElem?_cons_zero, Option.some.injEq] at hk
        subst hk
        simp only [Nat.add_zero] at hfail
        rw [h0] at hfail; cases hfail
      | succ k =>
        simp only [List.getElem?_cons_succ] at hk
        have hfail' : validateAlgorithm env (a0 + 1 + k) alg = some e := by
          have : a0 + 1 + k = a0 + (k + 1) := by omega
          rw [this]; exact hfail
        exact ih (a0 + 1) k alg e hk hfail'

/-- C13: with sign and verify arbitrary functions, for every algorithm of the list and every
message of the battery: if signing the message fails, or the signature produced is empty,
or verification of the message with its signature returns false or an error, then
`validateImplementation` returns an error, not nil. -/
theorem validateImplementation_fails_on_bad_message {Key : Type} (env : ValidationEnv Key)
    (algorithms : List SignatureAlgorithm) (a : Nat) (algorithm : SignatureAlgorithm)
    (ha : algorithms[a]? = some algorithm) (j : Nat) (testMessage : Bytes)
    (hj : testMessages[j]? = some testMessage)
    (hbad : ∀ mspInstance, env.NewEnhancedMSP (.create a) algorithm = .ok mspInstance →
      MessageCheckFails env a mspInstance j testMessage) :
    ∃ e, validateImplementation env algorithms = some e := by
  have hfail : ∃ e, validateAlgorithm env a algorithm = some e := by
    unfold validateAlgorithm
    cases hm : env.NewEnhancedMSP (.create a) algorithm with
    | error e => exact ⟨_, rfl⟩
    | ok m =>
      have hne := validateMessages_fails env a algorithm m testMessages 0 j testMessage hj
        (by rw [Nat.zero_add]; exact hbad m hm)
      obtain ⟨e, he⟩ := Option.ne_none_iff_exists'.mp hne
      exact ⟨e, by simp [he]⟩
  obtain ⟨e, he⟩ := hfail
  unfold validateImplementation
  exact validateFrom_fails env algorithms 0 a algorithm e ha (by rw [Nat.zero_add]; exact he)

/-- C13, instance: the scheme returns an empty signature for battery message 2 of the second
algorithm; validation of `[ECDSA, ML-DSA-44]` returns an error. -/
theorem validateImplementation_fails_on_bad_message_witness :
    ∃ e, validateImplementation (sampleValidationEnv signEmptyOnce (fun _ => .ok true))
      [ECDSA, MLDSA44] = some e :=
  validateImplementation_fails_on_bad_message
    (sampleValidationEnv signEmptyOnce (fun _ => .ok true)) [ECDSA, MLDSA44] 1 MLDSA44 rfl 2
    (asciiBytes "Test with special chars: !@#$%^&*()_+-=[]\x7b\x7d|;\x27:\",./<>?") rfl
    (fun _ _ => Or.inr ⟨[], rfl, Or.inl rfl⟩)

/-! ## C15: the cross-instance check is a smoke test -/

theorem validateMessages_withCrossVerify {Key : Type} (env : ValidationEnv Key)
    (cross : Nat → EnhancedMSP Key → Bytes → Bytes → Except String Bool) (a : Nat)
    (algorithm : SignatureAlgorithm) (mspInstance : EnhancedMSP Key) :
    ∀ (msgs : List Bytes) (i : Nat),
      validateMessages (env.withCrossVerify cross) a algorithm mspInstance i msgs
        = validateMessages env a algorithm mspInstance i msgs := by
  intro msgs
  induction msgs with
  | nil => intro i; rfl
  | cons m0 rest ih =>
    intro i
    have hS : (env.withCrossVerify cross).Sign = env.Sign := rfl
    have hV : ∀ m sig, (env.withCrossVerify cross).Verify (.verify a i) m m0 sig
        = env.Verify (.verify a i) m m0 sig := fun _ _ => rfl
    simp only [validateMessages, ih, hS, hV]

theorem validatePerformance_withCrossVerify {Key : Type} (env : ValidationEnv Key)
    (cross : Nat → EnhancedMSP Key → Bytes → Bytes → Except String Bool) (a : Nat)
    (algorithm : SignatureAlgorithm) (mspInstance : EnhancedMSP Key) :
    validatePerformance (env.withCrossVerify cross) a algorithm mspInstance
      = validatePerformance env a algorithm mspInstance := rfl

/-- Both arms of the match on the cross-instance `Verify` result continue alike. -/
theorem validateCrossInstance_eq {Key : Type} (env : ValidationEnv Key) (a : Nat)
    (algorithm : SignatureAlgorithm) (mspInstance : EnhancedMSP Key) :
    validateCrossInstance env a algorithm mspInstance =
      match env.NewEnhancedMSP (.createSigner a) algorithm with
      | .error err =>
        some ("failed to create signing MSP for " ++ algorithm.String ++ ": " ++ err)
      | .ok signingMSP =>
        match env.NewEnhancedMSP (.createVerifier a) algorithm with
        | .error err =>
          some ("failed to create verifying MSP for " ++ algorithm.String ++ ": " ++ err)
        | .ok _ =>
          match env.Sign (.crossSign a) signingMSP
              (asciiBytes "Cross-instance verification test") with
          | .error err =>
            some ("cross-instance signing failed for " ++ algorithm.String ++ ": " ++ err)
          | .ok _ =>
            match env.GetPublicKeyBytes (.crossGetPub a) signingMSP with
            | .error err => some ("failed to get public key for cross-instance test: " ++ err)
            | .ok _ => validatePerformance env a algorithm mspInstance := by
  unfold validateCrossInstance
  cases env.NewEnhancedMSP (.createSigner a) algorithm with
  | error e => rfl
  | ok s =>
    cases env.NewEnhancedMSP (.createVerifier a) algorithm with
    | error e => rfl
    | ok v =>
      cases h3 : env.Sign (.crossSign a) s (asciiBytes "Cross-instance verification test") with
      | error e => simp [h3]
      | ok sig =>
        cases h4 : env.GetPublicKeyBytes (.crossGetPub a) s with
        | error e => simp [h3, h4]
        | ok pk =>
          simp only [h3, h4]
          split <;> rfl

theorem validateAlgorithm_withCrossVerify {Key : Type} (env : ValidationEnv Key)
    (cross : Nat → EnhancedMSP Key → Bytes → Bytes → Except String Bool) (a : Nat)
    (algorithm : SignatureAlgorithm) :
    validateAlgorithm (env.withCrossVerify cross) a algorithm
      = validateAlgorithm env a algorithm := by
  have hc : ∀ m, validateCrossInstance (env.withCrossVerify cross) a algorithm m
      = validateCrossInstance env a algorithm m := by
    intro m
    rw [validateCrossInstance_eq, validateCrossInstance_eq, validatePerformance_withCrossVerify]
    rfl
  unfold validateAlgorithm
  simp only [validateMessages_withCrossVerify, hc]
  rfl

/-- C15: the result of the cross-instance `Verify` call (true, false or an error) never
changes the result of `validateImplementation`: replacing the results of that call by
arbitrary ones, all other operations unchanged, gives the same result. -/
theorem validateImplementation_ignores_cross_verify {Key : Type} (env : ValidationEnv Key)
    (cross : Nat → EnhancedMSP Key → Bytes → Bytes → Except String Bool)
    (algorithms : List SignatureAlgorithm) :
    validateImplementation (env.withCrossVerify cross) algorithms
      = validateImplementation env algorithms := by
  have h : ∀ (algs : List SignatureAlgorithm) (a : Nat),
      validateFrom (env.withCrossVerify cross) a algs = validateFrom env a algs := by
    intro algs
    induction algs with
    | nil => intro a; rfl
    | cons alg rest ih =>
      intro a
      simp only [validateFrom, validateAlgorithm_withCrossVerify, ih]
  exact h algorithms 0

/-- C15, instance: with every other operation succeeding, validation returns nil when the
cross-instance `Verify` returns false, as it does when it returns true. -/
theorem validateImplementation_ignores_cross_verify_witness :
    validateImplementation
      ((sampleValidationEnv (fun _ _ => .ok [1, 2, 3]) (fun _ => .ok true)).withCrossVerify
        (fun _ _ _ _ => .ok false)) [ECDSA, MLDSA44] = none :=
  (validateImplementation_ignores_cross_verify
    (sampleValidationEnv (fun _ _ => .ok [1, 2, 3]) (fun _ => .ok true))
    (fun _ _ _ _ => .ok false) [ECDSA, MLDSA44]).trans rfl

/-! ## C14: the battery of messages -/

/-- C14, the code at the failing input: no message of the battery is empty, its fourth entry
being the 18-byte text "Empty message test"; a scheme whose `Sign` fails on the zero-length
message, and only on it, passes validation. -/
theorem testMessages_has_no_empty_message :
    (∀ m ∈ testMessages, m ≠ []) ∧
    testMessages.length = 4 ∧
    testMessages[3]? = some (asciiBytes "Empty message test") ∧
    (asciiBytes "Empty message test").length = 18 ∧
    signFailsOnEmpty (.sign 0 3) [] = .error "cannot sign the empty message" ∧
    validateImplementation (sampleValidationEnv signFailsOnEmpty (fun _ => .ok true)) [ECDSA]
      = none := by
  refine ⟨?_, rfl, rfl, by decide, rfl, rfl⟩
  intro m hm
  simp only [testMessages, List.mem_cons, List.mem_singleton, List.not_mem_nil, or_false] at hm
  rcases hm with rfl | rfl | rfl | rfl <;> decide

/-! ## C12: what `Verify` returns -/

theorem mldsa_ne_ecdsa : MLDSA44 ≠ ECDSA ∧ MLDSA65 ≠ ECDSA ∧ MLDSA87 ≠ ECDSA := by
  refine ⟨?_, ?_, ?_⟩ <;> decide

theorem generateMLDSAKeyPair_wellTyped {EcPriv EcPub MlPriv MlPub : Type}
    (gen : KeyGeneration EcPriv MlPriv MlPub)
    (msp0 msp : EnhancedMSP (KeyValue EcPriv EcPub MlPriv MlPub)) (level : Int)
    (h : generateMLDSAKeyPair gen msp0 level = .ok msp) :
    msp.algorithm = msp0.algorithm ∧ ∃ keyPair, msp.keyPair = .mldsaKeyPair keyPair := by
  unfold generateMLDSAKeyPair at h
  cases hk : NewWorkingMLDSAKeyPair gen level with
  | error e => rw [hk] at h; cases h
  | ok kp =>
    rw [hk] at h
    simp only [Except.ok.injEq] at h
    subst h
    exact ⟨rfl, kp, rfl⟩

theorem NewEnhancedMSP_wellTyped {EcPriv EcPub MlPriv MlPub : Type}
    (P : Primitives EcPriv EcPub MlPriv MlPub) (gen : KeyGeneration EcPriv MlPriv MlPub)
    (algorithm : SignatureAlgorithm)
    (msp : EnhancedMSP (KeyValue EcPriv EcPub MlPriv MlPub))
    (h : NewEnhancedMSP P gen algorithm = .ok msp) : WellTyped msp := by
  unfold NewEnhancedMSP at h
  cases hg : generateKeyPair P gen { algorithm := algorithm, keyPair := .nil, publicKey := .nil }
    with
  | error e => rw [hg] at h; cases h
  | ok m =>
    rw [hg] at h
    simp only [Except.ok.injEq] at h
    subst h
    unfold generateKeyPair at hg
    simp only at hg
    split at hg
    · rename_i hA
      unfold generateECDSAKeyPair at hg
      cases hk : gen.ecdsaGenerateKey with
      | error e => rw [hk] at hg; cases hg
      | ok key =>
        rw [hk] at hg
        simp only [Except.ok.injEq] at hg
        subst hg
        exact Or.inl ⟨hA, _, rfl⟩
    · split at hg
      · rename_i hA
        obtain ⟨h1, h2⟩ := generateMLDSAKeyPair_wellTyped gen _ _ _ hg
        exact Or.inr ⟨Or.inl (h1.trans hA), h2⟩
      · split at hg
        · rename_i hA
          obtain ⟨h1, h2⟩ := generateMLDSAKeyPair_wellTyped gen _ _ _ hg
          exact Or.inr ⟨Or.inr (Or.inl (h1.trans hA)), h2⟩
        · split at hg
          · rename_i hA
            obtain ⟨h1, h2⟩ := generateMLDSAKeyPair_wellTyped gen _ _ _ hg
            exact Or.inr ⟨Or.inr (Or.inr (h1.trans hA)), h2⟩
          · cases hg

theorem setPublicKeyFromBytes_wellTyped {EcPriv EcPub MlPriv MlPub : Type}
    (P : Primitives EcPriv EcPub MlPriv MlPub)
    (msp msp' : EnhancedMSP (KeyValue EcPriv EcPub MlPriv MlPub)) (publicKeyBytes : Bytes)
    (err : Option String) (hw : WellTyped msp)
    (h : setPublicKeyFromBytes P msp publicKeyBytes = some (msp', err)) : WellTyped msp' := by
  unfold setPublicKeyFromBytes at h
  split at h
  · rename_i hA
    have hpk : ∃ publicKey, msp.publicKey = .ecdsaPublicKey publicKey := by
      rcases hw with ⟨-, hpk⟩ | ⟨hB, -⟩
      · exact hpk
      · exfalso
        rcases hB with hB | hB | hB <;> (rw [hA] at hB; revert hB; decide)
    simp only [Option.some.injEq] at h
    unfold setECDSAPublicKeyFromBytes at h
    cases hp : P.parsePKIXPublicKey publicKeyBytes with
    | error e =>
      rw [hp] at h
      simp only [Prod.mk.injEq] at h
      obtain ⟨h, -⟩ := h; subst h
      exact Or.inl ⟨hA, hpk⟩
    | ok o =>
      cases o with
      | none =>
        rw [hp] at h
        simp only [Prod.mk.injEq] at h
        obtain ⟨h, -⟩ := h; subst h
        exact Or.inl ⟨hA, hpk⟩
      | some k =>
        rw [hp] at h
        simp only [Prod.mk.injEq] at h
        obtain ⟨h, -⟩ := h; subst h
        exact Or.inl ⟨hA, k, rfl⟩
  · split at h
    · rename_i hA hB
      unfold setMLDSAPublicKeyFromBytes at h
      cases hkp : msp.keyPair with
      | mldsaKeyPair kp =>
        rw [hkp] at h
        simp only at h
        cases hpub : P.dilithiumPublicKeyFromBytes kp.Mode publicKeyBytes with
        | none => rw [hpub] at h; cases h
        | some pk =>
          rw [hpub] at h
          simp only [Option.some.injEq, Prod.mk.injEq] at h
          obtain ⟨h, -⟩ := h; subst h
          exact Or.inr ⟨hB, _, rfl⟩
      | nil => rw [hkp] at h; cases h
      | ecdsaPrivateKey k => rw [hkp] at h; cases h
      | ecdsaPublicKey k => rw [hkp] at h; cases h
    · simp only [Option.some.injEq, Prod.mk.injEq] at h
      obtain ⟨h, -⟩ := h; subst h
      exact hw

theorem Reachable.wellTyped {EcPriv EcPub MlPriv MlPub : Type}
    {P : Primitives EcPriv EcPub MlPriv MlPub}
    {msp : EnhancedMSP (KeyValue EcPriv EcPub MlPriv MlPub)} (h : Reachable P msp) :
    WellTyped msp := by
  induction h with
  | created gen algorithm msp h => exact NewEnhancedMSP_wellTyped P gen algorithm msp h
  | updated msp msp' bytes err _ hset ih =>
    exact setPublicKeyFromBytes_wellTyped P msp msp' bytes err ih hset

theorem Verify_of_wellTyped {EcPriv EcPub MlPriv MlPub : Type}
    (P : Primitives EcPriv EcPub MlPriv MlPub)
    (msp : EnhancedMSP (KeyValue EcPriv EcPub MlPriv MlPub)) (hw : WellTyped msp)
    (message signature : Bytes) : VerifyReturnsVerdict P msp message signature := by
  rcases hw with ⟨hA, pk, hpk⟩ | ⟨hB, kp, hkp⟩
  · refine Or.inl ⟨hA, pk, hpk, ?_⟩
    simp [EnhancedMSP.Verify, hA, verifyECDSA, hpk]
  · have hne : msp.algorithm ≠ ECDSA := by
      rcases hB with hB | hB | hB <;> (rw [hB]; decide)
    refine Or.inr ⟨hne, kp, hkp, ?_⟩
    simp [EnhancedMSP.Verify, hne, hB, verifyMLDSA, hkp]

/-- C12: on every instance obtained from the package the algorithm tag is one of the four
supported ones, and for every message and every signature byte string, well-formed or not,
`Verify` returns `(valid, nil)` with `valid` the verdict of the library primitive on the
SHA-256 digest of the message: a rejected signature is the boolean false with no error, and
`Verify` returns no error at all (so none for an input that is not malformed). -/
theorem Verify_reports_rejection_as_false {EcPriv EcPub MlPriv MlPub : Type}
    (P : Primitives EcPriv EcPub MlPriv MlPub)
    (msp : EnhancedMSP (KeyValue EcPriv EcPub MlPriv MlPub)) (hr : Reachable P msp)
    (message signature : Bytes) :
    msp.algorithm.Supported ∧
    VerifyReturnsVerdict P msp message signature ∧
    (∃ valid, EnhancedMSP.Verify P msp message signature = some (.ok valid)) ∧
    (∀ err, EnhancedMSP.Verify P msp message signature ≠ some (.error err)) := by
  have hw := hr.wellTyped
  have hv := Verify_of_wellTyped P msp hw message signature
  have hsup : msp.algorithm.Supported := by
    rcases hw with ⟨hA, -⟩ | ⟨hB, -⟩
    · exact Or.inl hA
    · exact Or.inr hB
  have hex : ∃ valid, EnhancedMSP.Verify P msp message signature = some (.ok valid) := by
    rcases hv with ⟨-, pk, -, h⟩ | ⟨-, kp, -, h⟩
    · exact ⟨_, h⟩
    · exact ⟨_, h⟩
  refine ⟨hsup, hv, hex, ?_⟩
  intro err herr
  obtain ⟨valid, h⟩ := hex
  rw [h] at herr
  cases herr

/-- C12, instance: `NewEnhancedMSP` of the sample primitives returns an ECDSA instance with
key `[7]`; on it the signature `[7, 1]` of the message `[1]` is accepted, and the wrong
signature `[0]` is reported as false with no error. -/
theorem Verify_reports_rejection_as_false_witness :
    NewEnhancedMSP samplePrimitives sampleKeyGeneration ECDSA
      = .ok { algorithm := ECDSA, keyPair := .ecdsaPrivateKey [7],
              publicKey := .ecdsaPublicKey [7] } ∧
    EnhancedMSP.Verify samplePrimitives
      { algorithm := ECDSA, keyPair := .ecdsaPrivateKey [7], publicKey := .ecdsaPublicKey [7] }
      [1] [7, 1] = some (.ok true) ∧
    EnhancedMSP.Verify samplePrimitives
      { algorithm := ECDSA, keyPair := .ecdsaPrivateKey [7], publicKey := .ecdsaPublicKey [7] }
      [1] [0] = some (.ok false) ∧
    ∀ err, EnhancedMSP.Verify samplePrimitives
      { algorithm := ECDSA, keyPair := .ecdsaPrivateKey [7], publicKey := .ecdsaPublicKey [7] }
      [1] [0] ≠ some (.error err) :=
  ⟨rfl, rfl, rfl,
   (Verify_reports_rejection_as_false samplePrimitives _
      (Reachable.created sampleKeyGeneration ECDSA _ rfl) [1] [0]).2.2.2⟩

end CryptoBenchmark
